import Mathlib

/-!
Verification development for the BN_TV_Recommender repository.

The feedback-learning core (`src/main/feedback.py`) and the recommendation
layer (`src/main/bn_recommender.py`, `src/main/LLM_agent.py`) are shallowly
embedded here.  Python dicts are modelled as association lists with
first-occurrence lookup; `defaultdict(float)` lookups default to `0`.
Counts and probabilities are modelled as exact rationals (`ℚ`); the spec's
`±ε` tolerances become exact equalities.
-/

namespace BNTV

/-- A CPD-row count dictionary: state name → pseudo-count
(Python `defaultdict(float)`). -/
abbrev Row := List (String × ℚ)

/-- A parent-state key: tuple of parent state names, `none` standing for the
Python `None` placeholder used for missing parent values. -/
abbrev Key := List (Option String)

/-- The per-variable counts dictionary: parent-state tuple → count row. -/
abbrev Counts := List (Key × Row)

/-- `cpd.state_names`: variable name → ordered list of its states. -/
abbrev StateNames := List (String × List String)

/-- A context-attribute dictionary (`atributes_bn`): attribute name →
value, where the stored value may itself be Python `None`. -/
abbrev Attrs := List (String × Option String)

/-- Dictionary lookup on a count row, defaulting to `0`
(`defaultdict(float)` read). -/
def rowGet : Row → String → ℚ
  | [], _ => 0
  | (k, v) :: rest, s => if k = s then v else rowGet rest s

/-- `d[s] += x` on a count row: add to the first binding of `s`, or append a
fresh binding `(s, x)` when absent (the `defaultdict` creates it at `0`). -/
def rowAdd : Row → String → ℚ → Row
  | [], s, x => [(s, x)]
  | (k, v) :: rest, s, x =>
    if k = s then (k, v + x) :: rest else (k, v) :: rowAdd rest s x

/-- `d[s] = x` on a count row: overwrite the first binding of `s`, or append
a fresh binding when absent. -/
def rowSet : Row → String → ℚ → Row
  | [], s, x => [(s, x)]
  | (k, v) :: rest, s, x =>
    if k = s then (k, x) :: rest else (k, v) :: rowSet rest s x

/-- The state names bound in a count row (`d.keys()`). -/
def rowKeys (r : Row) : List String := r.map Prod.fst

/-- `sum(d.values())` on a count row. -/
def rowTotal (r : Row) : ℚ := (r.map Prod.snd).sum

/-- Lookup of a parent-state key in the counts dictionary, defaulting to the
empty row. -/
def countsGet : Counts → Key → Row
  | [], _ => []
  | (k, r) :: rest, key => if k = key then r else countsGet rest key

/-- `key in counts` membership test (does not create an entry). -/
def countsHasKey : Counts → Key → Bool
  | [], _ => false
  | (k, _) :: rest, key => if k = key then true else countsHasKey rest key

/-- In-place mutation of the row stored at `key` (identity when the key is
absent; all uses are guarded by `countsHasKey`). -/
def countsModify : Counts → Key → (Row → Row) → Counts
  | [], _, _ => []
  | (k, r) :: rest, key, f =>
    if k = key then (k, f r) :: rest else (k, r) :: countsModify rest key f

/-- `state_names[v]` lookup, defaulting to the empty list. -/
def snGet : StateNames → String → List String
  | [], _ => []
  | (k, ss) :: rest, v => if k = v then ss else snGet rest v

/-- `attrs.get(p)`: `none` when the attribute is absent, `some v` when bound
to `v` (which may itself be the stored Python `None`). -/
def attrsGet : Attrs → String → Option (Option String)
  | [], _ => none
  | (k, v) :: rest, p => if k = p then some v else attrsGet rest p

/-- `attrs[p] = v` dictionary assignment. -/
def attrsSet : Attrs → String → Option String → Attrs
  | [], p, v => [(p, v)]
  | (k, w) :: rest, p, v =>
    if k = p then (k, v) :: rest else (k, w) :: attrsSet rest p v

/-- `itertools.product(*lists)`: all tuples, first coordinate varying
slowest. -/
def listProd : List (List String) → List (List String)
  | [] => [[]]
  | xs :: rest => xs.flatMap (fun x => (listProd rest).map (fun t => x :: t))

/-- A pgmpy `TabularCPD`, with `values` in its two-dimensional layout: one
row per state of the variable, one column per parent-state combination
(columns ordered as `itertools.product` of the parent state lists). -/
structure TabularCPD where
  varName : String
  parents : List String
  stateNames : StateNames
  values : List (List ℚ)
  deriving Repr, DecidableEq

/-- Entry of the 2-d value table at state index `i`, parent-combination
index `j` (out-of-range reads default to `0`). -/
def valAt (cpd : TabularCPD) (i j : Nat) : ℚ := (cpd.values.getD i []).getD j 0

/-- A model is its list of CPDs (`model.get_cpds()`); the DAG edges play no
role in the embedded operations. -/
abbrev Model := List TabularCPD

/-- The CPD attached to variable `v`, if any. -/
def modelGet (m : Model) (v : String) : Option TabularCPD :=
  m.find? (fun c => c.varName = v)

/-- `model.remove_cpds(v)`. -/
def remove_cpds (m : Model) (v : String) : Model :=
  m.filter (fun c => decide (c.varName ≠ v))

/-- `model.add_cpds(cpd)`. -/
def add_cpds (m : Model) (c : TabularCPD) : Model := m ++ [c]

/-- The per-variable entry of `cpt_counts`: parents, state names and the
counts dictionary. -/
structure CPTInfo where
  parents : List String
  stateNames : StateNames
  counts : Counts
  deriving Repr, DecidableEq

/-- The empty `CPTInfo`, used only as an out-of-dictionary default. -/
def CPTInfo.empty : CPTInfo := ⟨[], [], []⟩

/-- `cpt_counts` : variable name → `CPTInfo`. -/
abbrev CptCounts := List (String × CPTInfo)

/-- `cpt_counts[v]` lookup (all uses guarded by membership). -/
def cptGet : CptCounts → String → CPTInfo
  | [], _ => CPTInfo.empty
  | (k, i) :: rest, v => if k = v then i else cptGet rest v

/-- `v in cpt_counts`. -/
def cptHasKey : CptCounts → String → Bool
  | [], _ => false
  | (k, _) :: rest, v => if k = v then true else cptHasKey rest v

/-- `cpt_counts[v] = info` (in-place mutation of the entry; appends when the
key is new). -/
def cptSet : CptCounts → String → CPTInfo → CptCounts
  | [], v, i => [(v, i)]
  | (k, j) :: rest, v, i =>
    if k = v then (k, i) :: rest else (k, j) :: cptSet rest v i

/-- `initialize_cpt_counts` (feedback.py): convert model CPDs into initial
counts, seeding every parent-state combination with
`probability × virtual_sample_size`.  Rows are built per parent
combination; the resulting dictionary is exactly the one the Python
double loop produces. -/
def initialize_cpt_counts (model : Model) (virtual_sample_size : ℚ) : CptCounts :=
  model.map (fun cpd =>
    let parents := cpd.parents
    let sn := cpd.stateNames
    let var_states := snGet sn cpd.varName
    let combos := listProd (parents.map (fun p => snGet sn p))
    let counts : Counts := combos.enum.map (fun jc =>
      (jc.2.map some,
       var_states.enum.map (fun is =>
         (is.2, valAt cpd is.1 jc.1 * virtual_sample_size))))
    (cpd.varName, { parents := parents, stateNames := sn, counts := counts }))

/-- `build_cpd_from_counts` (feedback.py): renormalize every stored row into
a CPD column; a zero-total row yields a zero column.  (The Python
`counts[parent_state]` read on the `defaultdict` is modelled by the
non-mutating default-`[]` lookup `countsGet`, which computes the same
values.) -/
def build_cpd_from_counts (v : String) (cpt_info : CPTInfo) : TabularCPD :=
  let parents := cpt_info.parents
  let state_names := cpt_info.stateNames
  let counts := cpt_info.counts
  let var_states := snGet state_names v
  let parent_combinations := listProd (parents.map (fun p => snGet state_names p))
  let values := var_states.map (fun s =>
    parent_combinations.map (fun pc =>
      let row := countsGet counts (pc.map some)
      let total := rowTotal row
      if 0 < total then rowGet row s / total else 0))
  { varName := v, parents := parents, stateNames := state_names, values := values }

/-- `build_parent_state` (feedback.py): parent-state tuple from the context
attributes; a missing attribute, Python `None`, `""` or `"null"` all map
to the `None` placeholder. -/
def build_parent_state (parents : List String) (attrs : Attrs) : Key :=
  parents.map (fun p =>
    match attrsGet attrs p with
    | some (some s) => if s = "" ∨ s = "null" then none else some s
    | _ => none)

/-- `update_program_type_cpd` (feedback.py). -/
def update_program_type_cpd (model : Model) (cpt_counts : CptCounts)
    (program_type : String) (attrs : Attrs) (feedback : String)
    (learning_rate : ℚ) : Model × CptCounts :=
  let cpt := cptGet cpt_counts "ProgramType"
  let parents := cpt.parents
  let parent_state := build_parent_state parents attrs
  if countsHasKey cpt.counts parent_state = false then (model, cpt_counts)
  else
    let counts1 :=
      if feedback = "accepted" then
        countsModify cpt.counts parent_state (fun r =>
          rowAdd r program_type learning_rate)
      else if feedback = "rejected" then
        countsModify cpt.counts parent_state (fun r =>
          let current := rowGet r program_type
          let penalty := min (learning_rate * 0.5) (current * 0.2)
          let r1 := rowSet r program_type (max 1 (current - penalty))
          let all_types := snGet cpt.stateNames "ProgramType"
          let alternatives := all_types.filter (fun t => decide (t ≠ program_type))
          let boost_per_alt :=
            if alternatives.isEmpty then 0 else penalty / alternatives.length
          alternatives.foldl (fun acc alt => rowAdd acc alt boost_per_alt) r1)
      else cpt.counts
    let cpt1 : CPTInfo := { cpt with counts := counts1 }
    let new_cpd := build_cpd_from_counts "ProgramType" cpt1
    let model1 := add_cpds (remove_cpds model "ProgramType") new_cpd
    (model1, cptSet cpt_counts "ProgramType" cpt1)

/-- `update_program_genre_cpd` (feedback.py). -/
def update_program_genre_cpd (model : Model) (cpt_counts : CptCounts)
    (program_type program_genre : String) (attrs : Attrs) (feedback : String)
    (learning_rate : ℚ) : Model × CptCounts :=
  let cpt := cptGet cpt_counts "ProgramGenre"
  let parents := cpt.parents
  let attrs_with_type := attrsSet attrs "ProgramType" (some program_type)
  let parent_state := build_parent_state parents attrs_with_type
  if countsHasKey cpt.counts parent_state = false then (model, cpt_counts)
  else
    let counts1 :=
      if feedback = "accepted" then
        countsModify cpt.counts parent_state (fun r =>
          rowAdd r program_genre learning_rate)
      else if feedback = "rejected" then
        countsModify cpt.counts parent_state (fun r =>
          let current := rowGet r program_genre
          let penalty := min (learning_rate * 0.5) (current * 0.2)
          let r1 := rowSet r program_genre (max 1 (current - penalty))
          let all_genres := snGet cpt.stateNames "ProgramGenre"
          let alternatives := all_genres.filter (fun g => decide (g ≠ program_genre))
          let boost_per_alt :=
            if alternatives.isEmpty then 0 else penalty / alternatives.length
          alternatives.foldl (fun acc alt => rowAdd acc alt boost_per_alt) r1)
      else cpt.counts
    let cpt1 : CPTInfo := { cpt with counts := counts1 }
    let new_cpd := build_cpd_from_counts "ProgramGenre" cpt1
    let model1 := add_cpds (remove_cpds model "ProgramGenre") new_cpd
    (model1, cptSet cpt_counts "ProgramGenre" cpt1)

/-- `state["last_recommendation"]`: the recommended assignment
(`.get` of either key may be absent or Python `None`, both `none` here). -/
structure LastRec where
  programType : Option String
  programGenre : Option String
  deriving Repr, DecidableEq

/-- The session-state fields read by `apply_feedback`. -/
structure FeedbackState where
  user_feedback : Option String
  last_recommendation : Option LastRec
  atributes_bn : Attrs
  deriving Repr, DecidableEq

/-- `apply_feedback` (feedback.py): guard the signal and the last
recommendation, then update the ProgramType and ProgramGenre CPDs. -/
def apply_feedback (model : Model) (cpt_counts : CptCounts)
    (st : FeedbackState) (learning_rate : ℚ) : Model × CptCounts :=
  match st.user_feedback with
  | none => (model, cpt_counts)
  | some feedback =>
    if ¬ (feedback = "accepted" ∨ feedback = "rejected") then (model, cpt_counts)
    else
      match st.last_recommendation with
      | none => (model, cpt_counts)
      | some last_rec =>
        match last_rec.programType, last_rec.programGenre with
        | some program_type, some program_genre =>
          if program_type = "" ∨ program_genre = "" then (model, cpt_counts)
          else
            let attrs := st.atributes_bn
            let step1 :=
              if cptHasKey cpt_counts "ProgramType" then
                update_program_type_cpd model cpt_counts program_type attrs
                  feedback learning_rate
              else (model, cpt_counts)
            if cptHasKey step1.2 "ProgramGenre" then
              update_program_genre_cpd step1.1 step1.2 program_type
                program_genre attrs feedback learning_rate
            else step1
        | _, _ => (model, cpt_counts)

/-- The facts C1 asserts about one rejected update of the row for the
recommended state `s` of a variable with state list `states`: the
recommended count drops by `min(learning_rate × 0.5, 20% of it)` floored
at `1`, and every alternative state gains an even share of the removed
penalty mass. -/
def rejectedCountFacts (old new : Row) (s : String) (states : List String)
    (lr : ℚ) : Prop :=
  rowGet new s = max 1 (rowGet old s - min (lr * 0.5) (rowGet old s * 0.2)) ∧
  1 ≤ rowGet new s ∧
  ∀ a ∈ states.filter (fun t => decide (t ≠ s)),
    rowGet new a = rowGet old a
      + min (lr * 0.5) (rowGet old s * 0.2)
        / (states.filter (fun t => decide (t ≠ s))).length

instance (old new : Row) (s : String) (states : List String) (lr : ℚ) :
    Decidable (rejectedCountFacts old new s states lr) := by
  unfold rejectedCountFacts; infer_instance

/-- Fixture: a two-variable counts table (ProgramType with no parents,
ProgramGenre with parent ProgramType). -/
def ccA : CptCounts :=
  [("ProgramType",
    { parents := [],
      stateNames := [("ProgramType", ["a", "b"])],
      counts := [([], [("a", 10), ("b", 30)])] }),
   ("ProgramGenre",
    { parents := ["ProgramType"],
      stateNames := [("ProgramGenre", ["x", "y"]), ("ProgramType", ["a", "b"])],
      counts := [([some "a"], [("x", 5), ("y", 5)]),
                 ([some "b"], [("x", 1), ("y", 2)])] })]

/-- Fixture: counts tables in which neither derived parent-state key is
present (ProgramType conditions on `UserAge`, which the context leaves
unset). -/
def ccB : CptCounts :=
  [("ProgramType",
    { parents := ["UserAge"],
      stateNames := [("ProgramType", ["a", "b"]), ("UserAge", ["young", "old"])],
      counts := [([some "young"], [("a", 10), ("b", 20)]),
                 ([some "old"], [("a", 5), ("b", 5)])] }),
   ("ProgramGenre",
    { parents := ["ProgramType"],
      stateNames := [("ProgramGenre", ["x", "y"]), ("ProgramType", ["a", "b"])],
      counts := [([some "a"], [("x", 5), ("y", 5)]),
                 ([some "b"], [("x", 1), ("y", 2)])] })]

/-- Position of the first occurrence of `a` in `l` (length of `l` when
absent). -/
def idxOf {α : Type} [DecidableEq α] : List α → α → Nat
  | [], _ => 0
  | x :: rest, a => if x = a then 0 else idxOf rest a + 1

/-- The probability entry of a `TabularCPD` for variable state `v` and
parent-state combination `pc` (indexing the 2-d value table by the
positions of `v` and `pc` in the declared orders). -/
def cpdEntry (cpd : TabularCPD) (v : String) (pc : List String) : ℚ :=
  (cpd.values.getD (idxOf (snGet cpd.stateNames cpd.varName) v) []).getD
    (idxOf (listProd (cpd.parents.map (fun p => snGet cpd.stateNames p))) pc) 0

/-- Fixture: a ProgramType state whose pseudo-count sits below the floor 1
(as produced by `initialize_cpt_counts` from probability 0.01 and virtual
sample size 50). -/
def ccD : CptCounts :=
  [("ProgramType",
    { parents := [],
      stateNames := [("ProgramType", ["a", "b"])],
      counts := [([], [("a", 1/2), ("b", 99/2)])] })]

/-- Fixture: a ProgramType state already carrying the whole mass of its
row. -/
def ccE : CptCounts :=
  [("ProgramType",
    { parents := [],
      stateNames := [("ProgramType", ["a", "b"])],
      counts := [([], [("a", 50), ("b", 0)])] })]

/-- Fixture: a one-state ProgramType variable. -/
def ccF : CptCounts :=
  [("ProgramType",
    { parents := [],
      stateNames := [("ProgramType", ["a"])],
      counts := [([], [("a", 5)])] })]

/-- Structural validity of a model CPD: its variable's state list is
nonempty and duplicate-free, the value table has one row per state and one
column per parent-state combination, all entries are nonnegative and every
column sums to 1. -/
def ValidCpd (cpd : TabularCPD) : Prop :=
  (snGet cpd.stateNames cpd.varName).Nodup ∧
  snGet cpd.stateNames cpd.varName ≠ [] ∧
  cpd.values.length = (snGet cpd.stateNames cpd.varName).length ∧
  (∀ row ∈ cpd.values, row.length
    = (listProd (cpd.parents.map (fun p => snGet cpd.stateNames p))).length) ∧
  (∀ row ∈ cpd.values, ∀ x ∈ row, 0 ≤ x) ∧
  (∀ j, j < (listProd (cpd.parents.map
      (fun p => snGet cpd.stateNames p))).length →
    (cpd.values.map (fun row => row.getD j 0)).sum = 1)

/-- What C3 asserts of a rebuilt CPD: correct shape, every entry in `[0,1]`
and every column (one conditional distribution per parent combination)
summing exactly to 1. -/
def ValidProbTable (cpd : TabularCPD) : Prop :=
  cpd.values.length = (snGet cpd.stateNames cpd.varName).length ∧
  (∀ row ∈ cpd.values, row.length
    = (listProd (cpd.parents.map (fun p => snGet cpd.stateNames p))).length) ∧
  (∀ row ∈ cpd.values, ∀ x ∈ row, 0 ≤ x ∧ x ≤ 1) ∧
  (∀ j, j < (listProd (cpd.parents.map
      (fun p => snGet cpd.stateNames p))).length →
    (cpd.values.map (fun row => row.getD j 0)).sum = 1)

/-- Invariant of one stored count row for a variable with state list `vs`:
positive total, nonnegative entries, and state keys that are
duplicate-free and drawn from `vs`. -/
def RowGood (vs : List String) (r : Row) : Prop :=
  0 < rowTotal r ∧ (∀ kv ∈ r, 0 ≤ kv.2) ∧ rowKeys r ⊆ vs ∧ (rowKeys r).Nodup

/-- Invariant of one `cpt_counts` entry: duplicate-free state list, and for
every parent-state combination a present key holding a good row. -/
def GoodCpt (v : String) (cpt : CPTInfo) : Prop :=
  (snGet cpt.stateNames v).Nodup ∧
  ∀ pc ∈ listProd (cpt.parents.map (fun p => snGet cpt.stateNames p)),
    countsHasKey cpt.counts (pc.map some) = true ∧
    RowGood (snGet cpt.stateNames v) (countsGet cpt.counts (pc.map some))

/-- Invariant of the whole counts table. -/
def GoodCounts (cc : CptCounts) : Prop := ∀ ve ∈ cc, GoodCpt ve.1 ve.2

/-- Well-formedness of one feedback event against a counts table: the
learning rate is nonnegative and each recommended state belongs to the
declared domain of its variable (whenever that variable has a counts
entry). -/
def OkEvent (cc : CptCounts) (st : FeedbackState) (lr : ℚ) : Prop :=
  0 ≤ lr ∧
  ∀ rec, st.last_recommendation = some rec →
    (∀ pt, rec.programType = some pt → cptHasKey cc "ProgramType" = true →
      pt ∈ snGet (cptGet cc "ProgramType").stateNames "ProgramType") ∧
    (∀ pg, rec.programGenre = some pg → cptHasKey cc "ProgramGenre" = true →
      pg ∈ snGet (cptGet cc "ProgramGenre").stateNames "ProgramGenre")

/-- The two table structures `apply_feedback` never changes: which
variables have an entry, and each entry's state-name declaration. -/
def NamesEq (cc cc' : CptCounts) : Prop :=
  ∀ v, cptHasKey cc v = cptHasKey cc' v ∧
    (cptGet cc v).stateNames = (cptGet cc' v).stateNames

/-- Folding a finite sequence of feedback events over model and counts. -/
def applyEvents (m : Model) (cc : CptCounts) :
    List (FeedbackState × ℚ) → Model × CptCounts
  | [] => (m, cc)
  | e :: rest =>
    applyEvents (apply_feedback m cc e.1 e.2).1
      (apply_feedback m cc e.1 e.2).2 rest

/-- Fixture: a one-variable model whose single CPD is a valid probability
table. -/
def cpdW : TabularCPD :=
  { varName := "ProgramType", parents := [],
    stateNames := [("ProgramType", ["a", "b"])],
    values := [[3/10], [7/10]] }

/-- Fixture: one accepted-feedback event. -/
def stW : FeedbackState :=
  ⟨some "accepted", some ⟨some "a", some "x"⟩, []⟩

/-! #### Persistence (`save_cpt_counts` / `load_cpt_counts`)

`save_cpt_counts` stringifies each parent-state tuple with Python `str`
and dumps the structure to JSON; `load_cpt_counts` parses the file and
rebuilds the keys with `eval`.  JSON serialization of this string/float
structure round-trips exactly and is modelled as the identity; `str` of a
tuple and `eval` of its output are modelled character-exactly for keys
whose components contain no quote, backslash or comma characters (for
such labels Python `repr` quotes with single quotes and no escaping). -/

/-- The single-quote character used by Python `repr`. -/
def quoteChar : Char := Char.ofNat 39

/-- A category label within the scope of the serialization model: free of
quotes, backslashes and commas. -/
def simpleStrB (s : String) : Bool :=
  s.data.all (fun c =>
    decide (c ≠ quoteChar) && decide (c ≠ Char.ofNat 34) &&
    decide (c ≠ Char.ofNat 92) && decide (c ≠ ','))

/-- All components of a key are simple labels. -/
def simpleKeyB (k : Key) : Bool :=
  k.all (fun os => match os with
    | none => true
    | some s => simpleStrB s)

/-- Python `repr` of one tuple component (`None` or a quoted string). -/
def pyReprItem : Option String → List Char
  | none => ['N', 'o', 'n', 'e']
  | some s => quoteChar :: (s.data ++ [quoteChar])

/-- Join stringified components with the `", "` separator. -/
def joinCS : List (List Char) → List Char
  | [] => []
  | [x] => x
  | x :: rest => x ++ ',' :: ' ' :: joinCS rest

/-- Python `str` of a parent-state tuple (singleton tuples carry the
trailing comma, the empty tuple prints as `()`). -/
def pyReprKeyChars (k : Key) : List Char :=
  '(' :: ((joinCS (k.map pyReprItem))
    ++ (if k.length = 1 then [','] else []) ++ [')'])

/-- `str(k)` as a Lean string. -/
def pyReprKey (k : Key) : String := ⟨pyReprKeyChars k⟩

/-- Split a character list at every comma. -/
def splitComma : List Char → List (List Char)
  | [] => [[]]
  | c :: rest =>
    if c = ',' then [] :: splitComma rest
    else
      match splitComma rest with
      | [] => [[c]]
      | h :: t => (c :: h) :: t

/-- Drop leading spaces. -/
def trimLead : List Char → List Char
  | [] => []
  | c :: r => if c = ' ' then trimLead r else c :: r

/-- Parse one tuple component (`None` or a single-quoted string). -/
def parseItem (cs : List Char) : Option (Option String) :=
  if cs = ['N', 'o', 'n', 'e'] then some none
  else
    match cs with
    | [] => none
    | c :: rest =>
      if c = quoteChar then
        if rest.getLast? = some quoteChar then some (some ⟨rest.dropLast⟩)
        else none
      else none

/-- Python `eval` of a stringified tuple, on the image of `str`. -/
def pyEvalKeyChars (cs : List Char) : Option Key :=
  match cs with
  | [] => none
  | c :: rest =>
    if c = '(' then
      if rest.getLast? = some ')' then
        let inner := rest.dropLast
        let inner2 := if inner.getLast? = some ',' then inner.dropLast
          else inner
        if inner2 = [] then some []
        else ((splitComma inner2).map trimLead).mapM parseItem
      else none
    else none

/-- `eval(k_str)` on a Lean string. -/
def pyEvalKey (s : String) : Option Key := pyEvalKeyChars s.data

/-- One serialized `cpt_counts` entry, as written to JSON. -/
structure SerInfo where
  parents : List String
  stateNames : StateNames
  counts : List (String × Row)
  deriving Repr, DecidableEq

/-- The serialized structure (JSON round-trips it exactly). -/
abbrev SavedData := List (String × SerInfo)

/-- `save_cpt_counts` (feedback.py): stringify every parent-state tuple
key; inner rows and metadata are stored as-is. -/
def save_cpt_counts (cc : CptCounts) : SavedData :=
  cc.map (fun vi =>
    (vi.1,
     { parents := vi.2.parents,
       stateNames := vi.2.stateNames,
       counts := vi.2.counts.map (fun kr => (pyReprKey kr.1, kr.2)) }))

/-- `load_cpt_counts` (feedback.py): `eval` every stringified key back
into a tuple (failure of `eval` is an error, hence `Option`). -/
def load_cpt_counts (d : SavedData) : Option CptCounts :=
  d.mapM (fun vi =>
    (vi.2.counts.mapM (fun kr =>
      (pyEvalKey kr.1).map (fun k => (k, kr.2)))).map
      (fun counts =>
        (vi.1,
         { parents := vi.2.parents,
           stateNames := vi.2.stateNames,
           counts := counts })))

/-! ### Inference engine (spec §4.3) and composite recommendation

The engine itself lives in the external pgmpy library
(`VariableElimination`); the spec fixes its observable function in §4.3
(restrict to the evidence, eliminate, normalize; the elimination ordering
never affects the result), so the engine is modelled from the spec as
direct summation of the factorized joint. -/

/-- A string-valued evidence dictionary (non-null attributes only). -/
abbrev Evidence := List (String × String)

/-- Dictionary read inside a full assignment (missing keys read `""`). -/
def assignGet : Evidence → String → String
  | [], _ => ""
  | kv :: rest, x => if kv.1 = x then kv.2 else assignGet rest x

/-- Dictionary `get`, returning `none` on a missing key. -/
def evGet? : Evidence → String → Option String
  | [], _ => none
  | kv :: rest, x => if kv.1 = x then some kv.2 else evGet? rest x

/-- Dictionary assignment `d[k] = v`: update the existing entry in
place, else append. -/
def evSet : Evidence → String → String → Evidence
  | [], k, v => [(k, v)]
  | kv :: rest, k, v =>
      if kv.1 = k then (k, v) :: rest else kv :: evSet rest k v

/-- The variables the model declares (one CPD per variable). -/
def modelNodes (m : Model) : List String := m.map (fun c => c.varName)

/-- The declared state list of a variable (empty when undeclared). -/
def statesOf (m : Model) (v : String) : List String :=
  match modelGet m v with
  | some c => snGet c.stateNames v
  | none => []

/-- Modelled from the spec: the error cases of the inference engine
(§4.3): `UnknownVariableError`, `UnknownStateError`,
`UnsatisfiableEvidenceError`. -/
inductive InferError where
  | unknownVariable (v : String)
  | unknownState (v s : String)
  | unsatisfiableEvidence
  deriving Repr, DecidableEq

/-- Modelled from the spec: all full assignments extending the evidence —
each variable is pinned to its evidence value when present, otherwise
ranges over its declared states. -/
def assignProd (m : Model) (evidence : Evidence) : List Evidence :=
  (listProd (m.map (fun c =>
      match evGet? evidence c.varName with
      | some v => [v]
      | none => statesOf m c.varName))).map
    (fun vals => (modelNodes m).zip vals)

/-- The joint weight of a full assignment: the product over the CPDs of
the entry for the assigned state given the assigned parent states. -/
def jointWeight (m : Model) (a : Evidence) : ℚ :=
  (m.map (fun c =>
      cpdEntry c (assignGet a c.varName)
        (c.parents.map (fun p => assignGet a p)))).prod

/-- Modelled from the spec: the unnormalized posterior over the target's
states, by direct summation of the restricted joint. -/
def queryRaw (m : Model) (t : String) (evidence : Evidence) :
    List (String × ℚ) :=
  (statesOf m t).map (fun s =>
    (s, (((assignProd m evidence).filter
        (fun a => decide (assignGet a t = s))).map
        (fun a => jointWeight m a)).sum))

/-- The normalizer: the total unnormalized mass over the target. -/
def queryTotal (m : Model) (t : String) (evidence : Evidence) : ℚ :=
  ((queryRaw m t evidence).map Prod.snd).sum

/-- Modelled from the spec: §4.3 query — validate evidence variables,
evidence states and the target name, restrict and sum out, then
normalize; zero total mass is the unsatisfiable-evidence error. -/
def query (m : Model) (t : String) (evidence : Evidence) :
    Except InferError (List (String × ℚ)) :=
  match evidence.find? (fun kv => decide (kv.1 ∉ modelNodes m)) with
  | some kv => Except.error (InferError.unknownVariable kv.1)
  | none =>
    match evidence.find? (fun kv => decide (kv.2 ∉ statesOf m kv.1)) with
    | some kv => Except.error (InferError.unknownState kv.1 kv.2)
    | none =>
      if t ∈ modelNodes m then
        if queryTotal m t evidence = 0 then
          Except.error InferError.unsatisfiableEvidence
        else
          Except.ok ((queryRaw m t evidence).map
            (fun sv => (sv.1, sv.2 / queryTotal m t evidence)))
      else Except.error (InferError.unknownVariable t)

/-- Stable descending insertion of one scored state.  `list.sort(...,
reverse=True)` is a stable descending sort, and the stable descending
rearrangement of a list is unique, so insertion realizes exactly it. -/
def insDesc (x : String × ℚ) : List (String × ℚ) → List (String × ℚ)
  | [] => [x]
  | y :: r => if x.2 < y.2 then y :: insDesc x r else x :: y :: r

/-- `recommendations.sort(key=lambda x: x[1], reverse=True)`. -/
def sortDesc : List (String × ℚ) → List (String × ℚ)
  | [] => []
  | x :: r => insDesc x (sortDesc r)

/-- `CORE_NODES` (bn_recommender.py). -/
def CORE_NODES : List String :=
  ["UserAge", "UserGender", "HouseholdType", "TimeOfDay", "DayType",
   "ProgramType", "ProgramGenre", "ProgramDuration"]

/-- `_core_model` (bn_recommender.py): keep exactly the CPDs of the core
variables (the induced subgraph's edge list plays no role in the
embedded engine, which reads only the CPDs). -/
def coreModel (m : Model) : Model :=
  m.filter (fun c => CORE_NODES.contains c.varName)

/-- `recommend_gender` (bn_recommender.py): query `ProgramGenre` on the
core model, pair states with probabilities, sort descending by
probability. -/
def recommend_gender (evidence : Evidence) (model : Model) :
    Except InferError (List (String × ℚ)) :=
  (query (coreModel model) "ProgramGenre" evidence).map sortDesc

/-- Modelled from the spec: `recommend_type` is imported by LLM_agent.py
but defined in no file under src/; per the composite-recommendation spec
it runs inference on `ProgramType` with the given evidence and returns
the full descending ranking. -/
def recommend_type (evidence : Evidence) (model : Model) :
    Except InferError (List (String × ℚ)) :=
  (query model "ProgramType" evidence).map sortDesc

/-- `recommend_by_genre` (LLM_agent.py): drop every attribute whose
value is `None`, `""` or `"null"`; the survivors form the evidence. -/
def recommend_by_genre (attrs : Attrs) : Evidence :=
  attrs.filterMap (fun kv =>
    match kv.2 with
    | none => none
    | some v => if v = "" ∨ v = "null" then none else some (kv.1, v))

/-- The composite recommendation returned by `infer_with_bn`. -/
structure BNResult where
  programType : String
  programGenre : String
  type_ranking : List (String × ℚ)
  genre_ranking : List (String × ℚ)
  deriving Repr, DecidableEq

/-- `infer_with_bn` (LLM_agent.py): filter the attributes; with none
left return the empty result (`{}`, here `none`) without running any
inference; otherwise rank `ProgramType`, pin its top state into the
evidence, rank `ProgramGenre`, and return both top choices together
with both full rankings.  (`type_recs[0][0]` on the nonempty ranking of
a successful query is modelled by `headD`.) -/
def infer_with_bn (attrs : Attrs) (model : Model) :
    Except InferError (Option BNResult) :=
  let filtered := recommend_by_genre attrs
  if filtered.isEmpty then Except.ok none
  else
    match recommend_type filtered model with
    | Except.error e => Except.error e
    | Except.ok type_recs =>
      match recommend_gender (evSet filtered "ProgramType"
          (type_recs.headD ("", 0)).1) model with
      | Except.error e => Except.error e
      | Except.ok genre_recs =>
        Except.ok (some
          { programType := (type_recs.headD ("", 0)).1,
            programGenre := (genre_recs.headD ("", 0)).1,
            type_ranking := type_recs,
            genre_ranking := genre_recs })

/-- Fixture: a one-state `UserAge` CPD for the concrete runs. -/
def cpdU6 : TabularCPD :=
  { varName := "UserAge", parents := [],
    stateNames := [("UserAge", ["adult"])], values := [[1]] }

/-- Fixture: a one-state root `ProgramType` CPD. -/
def cpdT6 : TabularCPD :=
  { varName := "ProgramType", parents := [],
    stateNames := [("ProgramType", ["movie"])], values := [[1]] }

/-- Fixture: a one-state `ProgramGenre` CPD with parent `ProgramType`. -/
def cpdG6 : TabularCPD :=
  { varName := "ProgramGenre", parents := ["ProgramType"],
    stateNames := [("ProgramGenre", ["comedy"]), ("ProgramType", ["movie"])],
    values := [[1]] }

/-- Fixture: a three-variable core model. -/
def modelW6 : Model := [cpdU6, cpdT6, cpdG6]

/-- Fixture: attributes with one usable value and one null. -/
def attrsW6 : Attrs := [("UserAge", some "adult"), ("TimeOfDay", none)]

/-- Fixture: attributes that are all null/missing. -/
def attrsW9 : Attrs :=
  [("UserAge", some "null"), ("TimeOfDay", none), ("DayType", some "")]

/-! ### Dictionary lemmas -/

theorem rowGet_rowAdd_self (r : Row) (s : String) (x : ℚ) :
    rowGet (rowAdd r s x) s = rowGet r s + x := by
  induction r with
  | nil => simp [rowAdd, rowGet]
  | cons kv rest ih =>
    obtain ⟨k, v⟩ := kv
    by_cases h : k = s
    · subst h; simp [rowAdd, rowGet]
    · simp [rowAdd, rowGet, h, ih]

theorem rowGet_rowAdd_ne (r : Row) {t s : String} (x : ℚ) (h : t ≠ s) :
    rowGet (rowAdd r t x) s = rowGet r s := by
  induction r with
  | nil => simp [rowAdd, rowGet, h]
  | cons kv rest ih =>
    obtain ⟨k, v⟩ := kv
    by_cases hk : k = t
    · subst hk; simp [rowAdd, rowGet, h]
    · simp [rowAdd, rowGet, hk, ih]

theorem rowGet_rowSet_self (r : Row) (s : String) (x : ℚ) :
    rowGet (rowSet r s x) s = x := by
  induction r with
  | nil => simp [rowSet, rowGet]
  | cons kv rest ih =>
    obtain ⟨k, v⟩ := kv
    by_cases h : k = s
    · subst h; simp [rowSet, rowGet]
    · simp [rowSet, rowGet, h, ih]

theorem rowGet_rowSet_ne (r : Row) {t s : String} (x : ℚ) (h : t ≠ s) :
    rowGet (rowSet r t x) s = rowGet r s := by
  induction r with
  | nil => simp [rowSet, rowGet, h]
  | cons kv rest ih =>
    obtain ⟨k, v⟩ := kv
    by_cases hk : k = t
    · subst hk; simp [rowSet, rowGet, h]
    · simp [rowSet, rowGet, hk, ih]

theorem rowTotal_rowAdd (r : Row) (s : String) (x : ℚ) :
    rowTotal (rowAdd r s x) = rowTotal r + x := by
  induction r with
  | nil => simp [rowAdd, rowTotal]
  | cons kv rest ih =>
    obtain ⟨k, v⟩ := kv
    by_cases h : k = s
    · subst h; simp [rowAdd, rowTotal]; ring
    · simp [rowAdd, rowTotal, h] at ih ⊢; linarith

theorem rowGet_fold_rowAdd_not_mem (alts : List String) (b : ℚ) (r : Row)
    {s : String} (h : s ∉ alts) :
    rowGet (alts.foldl (fun acc alt => rowAdd acc alt b) r) s = rowGet r s := by
  induction alts generalizing r with
  | nil => rfl
  | cons a rest ih =>
    simp only [List.foldl_cons]
    rw [ih _ (fun hm => h (List.mem_cons_of_mem _ hm)),
      rowGet_rowAdd_ne _ _ (fun ha => h (by rw [← ha]; exact List.mem_cons_self a rest))]

theorem rowGet_fold_rowAdd_mem (alts : List String) (b : ℚ) (r : Row)
    {s : String} (hnd : alts.Nodup) (h : s ∈ alts) :
    rowGet (alts.foldl (fun acc alt => rowAdd acc alt b) r) s = rowGet r s + b := by
  induction alts generalizing r with
  | nil => cases h
  | cons a rest ih =>
    simp only [List.foldl_cons]
    rcases List.mem_cons.mp h with hs | hs
    · subst hs
      rw [rowGet_fold_rowAdd_not_mem _ _ _ (List.Nodup.not_mem hnd),
        rowGet_rowAdd_self]
    · rw [ih (rowAdd r a b) (List.Nodup.of_cons hnd) hs,
        rowGet_rowAdd_ne _ _
          (fun ha => (List.Nodup.not_mem hnd) (by rw [ha]; exact hs))]

theorem rowTotal_fold_rowAdd (alts : List String) (b : ℚ) (r : Row) :
    rowTotal (alts.foldl (fun acc alt => rowAdd acc alt b) r)
      = rowTotal r + alts.length * b := by
  induction alts generalizing r with
  | nil => simp
  | cons a rest ih =>
    simp only [List.foldl_cons, List.length_cons]
    rw [ih, rowTotal_rowAdd]
    push_cast
    ring

theorem countsGet_countsModify_self (c : Counts) (k : Key) (f : Row → Row)
    (h : countsHasKey c k = true) :
    countsGet (countsModify c k f) k = f (countsGet c k) := by
  induction c with
  | nil => simp [countsHasKey] at h
  | cons kr rest ih =>
    obtain ⟨k', r⟩ := kr
    by_cases hk : k' = k
    · subst hk; simp [countsModify, countsGet]
    · simp [countsModify, countsGet, countsHasKey, hk] at h ⊢
      exact ih h

theorem countsGet_countsModify_ne (c : Counts) {k' k : Key} (f : Row → Row)
    (h : k' ≠ k) :
    countsGet (countsModify c k' f) k = countsGet c k := by
  induction c with
  | nil => simp [countsModify]
  | cons kr rest ih =>
    obtain ⟨k₀, r⟩ := kr
    by_cases hk : k₀ = k'
    · subst hk; simp [countsModify, countsGet, h]
    · simp [countsModify, countsGet, hk, ih]

theorem countsHasKey_countsModify (c : Counts) (k' k : Key) (f : Row → Row) :
    countsHasKey (countsModify c k' f) k = countsHasKey c k := by
  induction c with
  | nil => rfl
  | cons kr rest ih =>
    obtain ⟨k₀, r⟩ := kr
    by_cases hk : k₀ = k'
    · subst hk; simp [countsModify, countsHasKey]
    · simp [countsModify, countsHasKey, hk, ih]

theorem cptGet_cptSet_self (c : CptCounts) (v : String) (i : CPTInfo) :
    cptGet (cptSet c v i) v = i := by
  induction c with
  | nil => simp [cptSet, cptGet]
  | cons ke rest ih =>
    obtain ⟨k, e⟩ := ke
    by_cases hk : k = v
    · subst hk; simp [cptSet, cptGet]
    · simp [cptSet, cptGet, hk, ih]

theorem cptGet_cptSet_ne (c : CptCounts) {v w : String} (i : CPTInfo)
    (h : v ≠ w) :
    cptGet (cptSet c v i) w = cptGet c w := by
  induction c with
  | nil => simp [cptSet, cptGet, h]
  | cons ke rest ih =>
    obtain ⟨k, e⟩ := ke
    by_cases hk : k = v
    · subst hk; simp [cptSet, cptGet, h]
    · simp [cptSet, cptGet, hk, ih]

theorem cptHasKey_cptSet (c : CptCounts) (v w : String) (i : CPTInfo) :
    cptHasKey (cptSet c v i) w = (cptHasKey c w || (w = v : Bool)) := by
  induction c with
  | nil =>
    by_cases h : w = v
    · subst h; simp [cptSet, cptHasKey]
    · simp [cptSet, cptHasKey, h, Ne.symm h]
  | cons ke rest ih =>
    obtain ⟨k, e⟩ := ke
    by_cases hk : k = v
    · subst hk
      by_cases hw : k = w
      · subst hw; simp [cptSet, cptHasKey]
      · simp [cptSet, cptHasKey, hw, Ne.symm hw]
    · by_cases hw : k = w
      · subst hw; simp [cptSet, cptHasKey, hk]
      · simp [cptSet, cptHasKey, hk, hw, ih]

/-! ### The rejected-feedback row transform -/

theorem rejected_transform_facts (r : Row) (s : String) (states : List String)
    (lr : ℚ) (hnd : states.Nodup) :
    rejectedCountFacts r
      ((states.filter (fun t => decide (t ≠ s))).foldl
        (fun acc alt => rowAdd acc alt
          (if (states.filter (fun t => decide (t ≠ s))).isEmpty then 0
           else min (lr * 0.5) (rowGet r s * 0.2)
             / ((states.filter (fun t => decide (t ≠ s))).length : ℚ)))
        (rowSet r s (max 1 (rowGet r s - min (lr * 0.5) (rowGet r s * 0.2)))))
      s states lr := by
  have hs_not : s ∉ states.filter (fun t => decide (t ≠ s)) := by
    intro hmem
    have := List.of_mem_filter hmem
    simp at this
  refine ⟨?_, ?_, ?_⟩
  · rw [rowGet_fold_rowAdd_not_mem _ _ _ hs_not, rowGet_rowSet_self]
  · rw [rowGet_fold_rowAdd_not_mem _ _ _ hs_not, rowGet_rowSet_self]
    exact le_max_left _ _
  · intro a ha
    have hnd' : (states.filter (fun t => decide (t ≠ s))).Nodup :=
      List.Nodup.filter _ hnd
    have has : a ≠ s := by
      have := List.of_mem_filter ha
      simpa using this
    rw [rowGet_fold_rowAdd_mem _ _ _ hnd' ha,
      rowGet_rowSet_ne _ _ (Ne.symm has),
      if_neg (by rw [List.isEmpty_iff]; exact List.ne_nil_of_mem ha)]

/-! ### Unfolding lemmas for the update functions -/

theorem update_program_type_cpd_snd_other (m : Model) (cc : CptCounts)
    (pt : String) (attrs : Attrs) (fb : String) (lr : ℚ) {v : String}
    (hv : v ≠ "ProgramType") :
    cptGet (update_program_type_cpd m cc pt attrs fb lr).2 v = cptGet cc v := by
  unfold update_program_type_cpd
  by_cases hc : countsHasKey (cptGet cc "ProgramType").counts
      (build_parent_state (cptGet cc "ProgramType").parents attrs) = false
  · rw [if_pos hc]
  · rw [if_neg hc]
    exact cptGet_cptSet_ne _ _ (Ne.symm hv)

theorem update_program_type_cpd_snd_hasKey (m : Model) (cc : CptCounts)
    (pt : String) (attrs : Attrs) (fb : String) (lr : ℚ) {v : String}
    (hv : cptHasKey cc v = true) :
    cptHasKey (update_program_type_cpd m cc pt attrs fb lr).2 v = true := by
  unfold update_program_type_cpd
  by_cases hc : countsHasKey (cptGet cc "ProgramType").counts
      (build_parent_state (cptGet cc "ProgramType").parents attrs) = false
  · rw [if_pos hc]; exact hv
  · rw [if_neg hc]
    simp [cptHasKey_cptSet, hv]

theorem update_program_genre_cpd_snd_other (m : Model) (cc : CptCounts)
    (pt pg : String) (attrs : Attrs) (fb : String) (lr : ℚ) {v : String}
    (hv : v ≠ "ProgramGenre") :
    cptGet (update_program_genre_cpd m cc pt pg attrs fb lr).2 v
      = cptGet cc v := by
  unfold update_program_genre_cpd
  by_cases hc : countsHasKey (cptGet cc "ProgramGenre").counts
      (build_parent_state (cptGet cc "ProgramGenre").parents
        (attrsSet attrs "ProgramType" (some pt))) = false
  · rw [if_pos hc]
  · rw [if_neg hc]
    exact cptGet_cptSet_ne _ _ (Ne.symm hv)

theorem apply_feedback_eq (m : Model) (cc : CptCounts) (pt pg : String)
    (attrs : Attrs) (fb : String) (lr : ℚ)
    (hfb : fb = "accepted" ∨ fb = "rejected")
    (hpt : pt ≠ "") (hpg : pg ≠ "")
    (htk : cptHasKey cc "ProgramType" = true)
    (hgk : cptHasKey cc "ProgramGenre" = true) :
    apply_feedback m cc ⟨some fb, some ⟨some pt, some pg⟩, attrs⟩ lr
      = update_program_genre_cpd
          (update_program_type_cpd m cc pt attrs fb lr).1
          (update_program_type_cpd m cc pt attrs fb lr).2
          pt pg attrs fb lr := by
  unfold apply_feedback
  dsimp only
  rw [if_neg (by simp [hfb]), if_neg (by simp [hpt, hpg])]
  rw [if_pos htk,
    if_pos (update_program_type_cpd_snd_hasKey m cc pt attrs fb lr hgk)]

theorem update_program_type_cpd_rejected_get (m : Model) (cc : CptCounts)
    (pt : String) (attrs : Attrs) (lr : ℚ)
    (hk : countsHasKey (cptGet cc "ProgramType").counts
      (build_parent_state (cptGet cc "ProgramType").parents attrs) = true)
    (hnd : (snGet (cptGet cc "ProgramType").stateNames "ProgramType").Nodup) :
    rejectedCountFacts
      (countsGet (cptGet cc "ProgramType").counts
        (build_parent_state (cptGet cc "ProgramType").parents attrs))
      (countsGet
        (cptGet (update_program_type_cpd m cc pt attrs "rejected" lr).2
          "ProgramType").counts
        (build_parent_state (cptGet cc "ProgramType").parents attrs))
      pt (snGet (cptGet cc "ProgramType").stateNames "ProgramType") lr := by
  unfold update_program_type_cpd
  rw [if_neg (by rw [hk]; exact fun h => Bool.noConfusion h)]
  dsimp only
  rw [if_neg (by simp), if_pos rfl]
  rw [cptGet_cptSet_self]
  dsimp only
  rw [countsGet_countsModify_self _ _ _ hk]
  exact rejected_transform_facts _ pt _ lr hnd

theorem update_program_genre_cpd_rejected_get (m : Model) (cc : CptCounts)
    (pt pg : String) (attrs : Attrs) (lr : ℚ)
    (hk : countsHasKey (cptGet cc "ProgramGenre").counts
      (build_parent_state (cptGet cc "ProgramGenre").parents
        (attrsSet attrs "ProgramType" (some pt))) = true)
    (hnd : (snGet (cptGet cc "ProgramGenre").stateNames "ProgramGenre").Nodup) :
    rejectedCountFacts
      (countsGet (cptGet cc "ProgramGenre").counts
        (build_parent_state (cptGet cc "ProgramGenre").parents
          (attrsSet attrs "ProgramType" (some pt))))
      (countsGet
        (cptGet (update_program_genre_cpd m cc pt pg attrs "rejected" lr).2
          "ProgramGenre").counts
        (build_parent_state (cptGet cc "ProgramGenre").parents
          (attrsSet attrs "ProgramType" (some pt))))
      pg (snGet (cptGet cc "ProgramGenre").stateNames "ProgramGenre") lr := by
  unfold update_program_genre_cpd
  rw [if_neg (by rw [hk]; exact fun h => Bool.noConfusion h)]
  dsimp only
  rw [if_neg (by simp), if_pos rfl]
  rw [cptGet_cptSet_self]
  dsimp only
  rw [countsGet_countsModify_self _ _ _ hk]
  exact rejected_transform_facts _ pg _ lr hnd

/-! ### C1 -/

/-- C1: for every call to `apply_feedback` with signal `"rejected"` whose
derived parent-state key is present in the counts table, the recommended
state's count is decreased by `min(learning_rate × 0.5, 20% of its current
count)`, floored so it never drops below 1, and the removed mass is
redistributed evenly across the variable's other states — for both the
ProgramType and the ProgramGenre table. -/
theorem C1_apply_feedback_rejected (m : Model) (cc : CptCounts)
    (pt pg : String) (attrs : Attrs) (lr : ℚ)
    (hpt : pt ≠ "") (hpg : pg ≠ "")
    (htk : cptHasKey cc "ProgramType" = true)
    (hgk : cptHasKey cc "ProgramGenre" = true)
    (htps : countsHasKey (cptGet cc "ProgramType").counts
      (build_parent_state (cptGet cc "ProgramType").parents attrs) = true)
    (hgps : countsHasKey (cptGet cc "ProgramGenre").counts
      (build_parent_state (cptGet cc "ProgramGenre").parents
        (attrsSet attrs "ProgramType" (some pt))) = true)
    (htnd : (snGet (cptGet cc "ProgramType").stateNames "ProgramType").Nodup)
    (hgnd : (snGet (cptGet cc "ProgramGenre").stateNames "ProgramGenre").Nodup) :
    rejectedCountFacts
      (countsGet (cptGet cc "ProgramType").counts
        (build_parent_state (cptGet cc "ProgramType").parents attrs))
      (countsGet
        (cptGet (apply_feedback m cc ⟨some "rejected",
            some ⟨some pt, some pg⟩, attrs⟩ lr).2 "ProgramType").counts
        (build_parent_state (cptGet cc "ProgramType").parents attrs))
      pt (snGet (cptGet cc "ProgramType").stateNames "ProgramType") lr
    ∧ rejectedCountFacts
      (countsGet (cptGet cc "ProgramGenre").counts
        (build_parent_state (cptGet cc "ProgramGenre").parents
          (attrsSet attrs "ProgramType" (some pt))))
      (countsGet
        (cptGet (apply_feedback m cc ⟨some "rejected",
            some ⟨some pt, some pg⟩, attrs⟩ lr).2 "ProgramGenre").counts
        (build_parent_state (cptGet cc "ProgramGenre").parents
          (attrsSet attrs "ProgramType" (some pt))))
      pg (snGet (cptGet cc "ProgramGenre").stateNames "ProgramGenre") lr := by
  rw [apply_feedback_eq m cc pt pg attrs "rejected" lr (Or.inr rfl) hpt hpg htk hgk]
  have hTentry :
      cptGet (update_program_type_cpd m cc pt attrs "rejected" lr).2 "ProgramGenre"
        = cptGet cc "ProgramGenre" :=
    update_program_type_cpd_snd_other m cc pt attrs "rejected" lr (by simp)
  constructor
  · have hframe :
        cptGet (update_program_genre_cpd
            (update_program_type_cpd m cc pt attrs "rejected" lr).1
            (update_program_type_cpd m cc pt attrs "rejected" lr).2
            pt pg attrs "rejected" lr).2 "ProgramType"
          = cptGet (update_program_type_cpd m cc pt attrs "rejected" lr).2
              "ProgramType" :=
      update_program_genre_cpd_snd_other _ _ pt pg attrs "rejected" lr (by simp)
    rw [hframe]
    exact update_program_type_cpd_rejected_get m cc pt attrs lr htps htnd
  · have h := update_program_genre_cpd_rejected_get
      (update_program_type_cpd m cc pt attrs "rejected" lr).1
      (update_program_type_cpd m cc pt attrs "rejected" lr).2
      pt pg attrs lr (by rw [hTentry]; exact hgps) (by rw [hTentry]; exact hgnd)
    rw [hTentry] at h
    exact h

/-- Witness for C1 at a concrete input: `ProgramType` counts
`{a: 10, b: 30}`, `ProgramGenre` counts `{x: 5, y: 5}` under parent `a`,
learning rate 50, recommendation `(a, x)` rejected. -/
theorem C1_apply_feedback_rejected_witness :
    rejectedCountFacts
      (countsGet (cptGet ccA "ProgramType").counts
        (build_parent_state (cptGet ccA "ProgramType").parents []))
      (countsGet
        (cptGet (apply_feedback [] ccA ⟨some "rejected",
            some ⟨some "a", some "x"⟩, []⟩ 50).2 "ProgramType").counts
        (build_parent_state (cptGet ccA "ProgramType").parents []))
      "a" (snGet (cptGet ccA "ProgramType").stateNames "ProgramType") 50
    ∧ rejectedCountFacts
      (countsGet (cptGet ccA "ProgramGenre").counts
        (build_parent_state (cptGet ccA "ProgramGenre").parents
          (attrsSet [] "ProgramType" (some "a"))))
      (countsGet
        (cptGet (apply_feedback [] ccA ⟨some "rejected",
            some ⟨some "a", some "x"⟩, []⟩ 50).2 "ProgramGenre").counts
        (build_parent_state (cptGet ccA "ProgramGenre").parents
          (attrsSet [] "ProgramType" (some "a"))))
      "x" (snGet (cptGet ccA "ProgramGenre").stateNames "ProgramGenre") 50 :=
  C1_apply_feedback_rejected [] ccA "a" "x" [] 50
    (by decide) (by decide) (by decide) (by decide)
    (by decide) (by decide) (by decide) (by decide)

/-! ### C2 -/

theorem update_program_type_cpd_noop (m : Model) (cc : CptCounts)
    (pt : String) (attrs : Attrs) (fb : String) (lr : ℚ)
    (hT : countsHasKey (cptGet cc "ProgramType").counts
      (build_parent_state (cptGet cc "ProgramType").parents attrs) = false) :
    update_program_type_cpd m cc pt attrs fb lr = (m, cc) := by
  unfold update_program_type_cpd
  rw [if_pos hT]

theorem update_program_genre_cpd_noop (m : Model) (cc : CptCounts)
    (pt pg : String) (attrs : Attrs) (fb : String) (lr : ℚ)
    (hG : countsHasKey (cptGet cc "ProgramGenre").counts
      (build_parent_state (cptGet cc "ProgramGenre").parents
        (attrsSet attrs "ProgramType" (some pt))) = false) :
    update_program_genre_cpd m cc pt pg attrs fb lr = (m, cc) := by
  unfold update_program_genre_cpd
  rw [if_pos hG]

theorem build_parent_state_getD (parents : List String) (attrs : Attrs)
    (i : Nat) (hi : i < parents.length) :
    (build_parent_state parents attrs).getD i (some "")
      = match attrsGet attrs (parents.getD i "") with
        | some (some s) => if s = "" ∨ s = "null" then none else some s
        | _ => none := by
  unfold build_parent_state
  rw [List.getD_eq_getElem?_getD, List.getElem?_map,
    List.getElem?_eq_getElem hi, List.getD_eq_getElem?_getD,
    List.getElem?_eq_getElem hi]
  rfl

/-- C2: the parent-state key restricts the context to the variable's
parents; a missing, `None`, empty or `"null"` parent value maps to the
reserved `none` sentinel (distinct from every category label, i.e. from
every `some` value), a genuine value is kept verbatim; and when the derived
key is absent from the counts table, the update for that variable — and
hence `apply_feedback` when both keys are absent — returns the model and
counts unchanged: no row is created, no count or CPD is touched, and no
error is raised. -/
theorem C2_parent_key_sentinel_and_noop (m : Model) (cc : CptCounts)
    (fb pt pg : String) (attrs : Attrs) (lr : ℚ)
    (hT : countsHasKey (cptGet cc "ProgramType").counts
      (build_parent_state (cptGet cc "ProgramType").parents attrs) = false)
    (hG : countsHasKey (cptGet cc "ProgramGenre").counts
      (build_parent_state (cptGet cc "ProgramGenre").parents
        (attrsSet attrs "ProgramType" (some pt))) = false) :
    (∀ (parents : List String) (a : Attrs),
      (build_parent_state parents a).length = parents.length) ∧
    (∀ (parents : List String) (a : Attrs) (i : Nat), i < parents.length →
      (attrsGet a (parents.getD i "") = none
        ∨ attrsGet a (parents.getD i "") = some none
        ∨ attrsGet a (parents.getD i "") = some (some "")
        ∨ attrsGet a (parents.getD i "") = some (some "null"))
      → (build_parent_state parents a).getD i (some "") = none) ∧
    (∀ (parents : List String) (a : Attrs) (i : Nat), i < parents.length →
      ∀ v : String, attrsGet a (parents.getD i "") = some (some v) →
        v ≠ "" → v ≠ "null" →
        (build_parent_state parents a).getD i (some "") = some v) ∧
    (∀ v : String, (none : Option String) ≠ some v) ∧
    update_program_type_cpd m cc pt attrs fb lr = (m, cc) ∧
    update_program_genre_cpd m cc pt pg attrs fb lr = (m, cc) ∧
    apply_feedback m cc ⟨some fb, some ⟨some pt, some pg⟩, attrs⟩ lr
      = (m, cc) := by
  refine ⟨?_, ?_, ?_, ?_, ?_, ?_, ?_⟩
  · intro parents a
    unfold build_parent_state
    exact List.length_map _ _
  · intro parents a i hi hmiss
    rw [build_parent_state_getD parents a i hi]
    rcases hmiss with h | h | h | h <;> rw [h] <;> simp
  · intro parents a i hi v hv hv1 hv2
    rw [build_parent_state_getD parents a i hi, hv]
    simp [hv1, hv2]
  · intro v h
    exact Option.noConfusion h
  · exact update_program_type_cpd_noop m cc pt attrs fb lr hT
  · exact update_program_genre_cpd_noop m cc pt pg attrs fb lr hG
  · unfold apply_feedback
    dsimp only
    by_cases hfb : fb = "accepted" ∨ fb = "rejected"
    · rw [if_neg (not_not_intro hfb)]
      by_cases hpp : pt = "" ∨ pg = ""
      · rw [if_pos hpp]
      · rw [if_neg hpp]
        by_cases htk : cptHasKey cc "ProgramType" = true
        · rw [if_pos htk, update_program_type_cpd_noop m cc pt attrs fb lr hT]
          by_cases hgk : cptHasKey cc "ProgramGenre" = true
          · rw [if_pos hgk,
              update_program_genre_cpd_noop m cc pt pg attrs fb lr hG]
          · rw [if_neg hgk]
        · rw [if_neg htk]
          by_cases hgk : cptHasKey cc "ProgramGenre" = true
          · rw [if_pos hgk,
              update_program_genre_cpd_noop m cc pt pg attrs fb lr hG]
          · rw [if_neg hgk]
    · rw [if_pos hfb]

/-- Witness for C2: with `UserAge` unset the derived ProgramType key is
`(None,)`, absent from `ccB`; the ProgramGenre key `("zz",)` is equally
absent; `apply_feedback` leaves everything unchanged. -/
theorem C2_parent_key_sentinel_and_noop_witness :
    update_program_type_cpd [] ccB "zz" [] "rejected" 50 = ([], ccB) ∧
    apply_feedback [] ccB ⟨some "rejected", some ⟨some "zz", some "x"⟩, []⟩ 50
      = ([], ccB) :=
  ⟨(C2_parent_key_sentinel_and_noop [] ccB "rejected" "zz" "x" [] 50
      (by decide) (by decide)).2.2.2.2.1,
   (C2_parent_key_sentinel_and_noop [] ccB "rejected" "zz" "x" [] 50
      (by decide) (by decide)).2.2.2.2.2.2⟩

/-! ### More row lemmas and the build bridge -/

theorem mem_rowKeys_of_rowGet_ne (r : Row) (s : String) (h : rowGet r s ≠ 0) :
    s ∈ rowKeys r := by
  induction r with
  | nil => exact absurd rfl h
  | cons kv rest ih =>
    obtain ⟨k, v⟩ := kv
    by_cases hk : k = s
    · subst hk; exact List.mem_cons_self _ _
    · have : rowGet rest s ≠ 0 := by
        simpa [rowGet, hk] using h
      exact List.mem_cons_of_mem _ (ih this)

theorem rowTotal_rowSet_mem (r : Row) (s : String) (x : ℚ)
    (h : s ∈ rowKeys r) :
    rowTotal (rowSet r s x) = rowTotal r - rowGet r s + x := by
  induction r with
  | nil => cases h
  | cons kv rest ih =>
    obtain ⟨k, v⟩ := kv
    by_cases hk : k = s
    · subst hk; simp [rowSet, rowTotal, rowGet]; ring
    · have hmem : s ∈ rowKeys rest := by
        rcases List.mem_cons.mp h with h1 | h1
        · exact absurd h1.symm hk
        · exact h1
      simp only [rowSet, rowTotal, rowGet, if_neg hk, List.map_cons,
        List.sum_cons] at ih ⊢
      rw [ih hmem]; ring

theorem getD_map_idxOf {α β : Type} [DecidableEq α] (l : List α) (f : α → β)
    (a : α) (d : β) (h : a ∈ l) :
    (l.map f).getD (idxOf l a) d = f a := by
  induction l with
  | nil => cases h
  | cons x rest ih =>
    by_cases hx : x = a
    · subst hx; simp [idxOf]
    · have hmem : a ∈ rest := by
        rcases List.mem_cons.mp h with h1 | h1
        · exact absurd h1.symm hx
        · exact h1
      simpa [idxOf, hx] using ih hmem

theorem cpdEntry_build (v : String) (cpt : CPTInfo) (s : String)
    (pc : List String)
    (hs : s ∈ snGet cpt.stateNames v)
    (hpc : pc ∈ listProd (cpt.parents.map (fun p => snGet cpt.stateNames p))) :
    cpdEntry (build_cpd_from_counts v cpt) s pc
      = (if 0 < rowTotal (countsGet cpt.counts (pc.map some))
         then rowGet (countsGet cpt.counts (pc.map some)) s
              / rowTotal (countsGet cpt.counts (pc.map some))
         else 0) := by
  unfold cpdEntry build_cpd_from_counts
  dsimp only
  rw [getD_map_idxOf _ _ _ _ hs]
  exact getD_map_idxOf _ _ _ _ hpc

/-! ### Entry-level unfolding of the update functions -/

theorem update_program_type_cpd_accepted_entry (m : Model) (cc : CptCounts)
    (pt : String) (attrs : Attrs) (lr : ℚ)
    (hk : countsHasKey (cptGet cc "ProgramType").counts
      (build_parent_state (cptGet cc "ProgramType").parents attrs) = true) :
    cptGet (update_program_type_cpd m cc pt attrs "accepted" lr).2 "ProgramType"
      = { cptGet cc "ProgramType" with
          counts := countsModify (cptGet cc "ProgramType").counts
            (build_parent_state (cptGet cc "ProgramType").parents attrs)
            (fun r => rowAdd r pt lr) } := by
  unfold update_program_type_cpd
  rw [if_neg (by rw [hk]; exact fun h => Bool.noConfusion h)]
  dsimp only
  rw [if_pos rfl, cptGet_cptSet_self]

theorem update_program_type_cpd_rejected_entry (m : Model) (cc : CptCounts)
    (pt : String) (attrs : Attrs) (lr : ℚ)
    (hk : countsHasKey (cptGet cc "ProgramType").counts
      (build_parent_state (cptGet cc "ProgramType").parents attrs) = true) :
    cptGet (update_program_type_cpd m cc pt attrs "rejected" lr).2 "ProgramType"
      = { cptGet cc "ProgramType" with
          counts := countsModify (cptGet cc "ProgramType").counts
            (build_parent_state (cptGet cc "ProgramType").parents attrs)
            (fun r =>
              (((snGet (cptGet cc "ProgramType").stateNames "ProgramType").filter
                  (fun t => decide (t ≠ pt))).foldl
                (fun acc alt => rowAdd acc alt
                  (if ((snGet (cptGet cc "ProgramType").stateNames
                        "ProgramType").filter
                        (fun t => decide (t ≠ pt))).isEmpty then 0
                   else min (lr * 0.5) (rowGet r pt * 0.2)
                     / (((snGet (cptGet cc "ProgramType").stateNames
                          "ProgramType").filter
                          (fun t => decide (t ≠ pt))).length : ℚ)))
                (rowSet r pt
                  (max 1 (rowGet r pt - min (lr * 0.5) (rowGet r pt * 0.2)))))) } := by
  unfold update_program_type_cpd
  rw [if_neg (by rw [hk]; exact fun h => Bool.noConfusion h)]
  dsimp only
  rw [if_neg (by simp), if_pos rfl, cptGet_cptSet_self]

theorem update_program_genre_cpd_accepted_entry (m : Model) (cc : CptCounts)
    (pt pg : String) (attrs : Attrs) (lr : ℚ)
    (hk : countsHasKey (cptGet cc "ProgramGenre").counts
      (build_parent_state (cptGet cc "ProgramGenre").parents
        (attrsSet attrs "ProgramType" (some pt))) = true) :
    cptGet (update_program_genre_cpd m cc pt pg attrs "accepted" lr).2
        "ProgramGenre"
      = { cptGet cc "ProgramGenre" with
          counts := countsModify (cptGet cc "ProgramGenre").counts
            (build_parent_state (cptGet cc "ProgramGenre").parents
              (attrsSet attrs "ProgramType" (some pt)))
            (fun r => rowAdd r pg lr) } := by
  unfold update_program_genre_cpd
  rw [if_neg (by rw [hk]; exact fun h => Bool.noConfusion h)]
  dsimp only
  rw [if_pos rfl, cptGet_cptSet_self]

theorem update_program_genre_cpd_rejected_entry (m : Model) (cc : CptCounts)
    (pt pg : String) (attrs : Attrs) (lr : ℚ)
    (hk : countsHasKey (cptGet cc "ProgramGenre").counts
      (build_parent_state (cptGet cc "ProgramGenre").parents
        (attrsSet attrs "ProgramType" (some pt))) = true) :
    cptGet (update_program_genre_cpd m cc pt pg attrs "rejected" lr).2
        "ProgramGenre"
      = { cptGet cc "ProgramGenre" with
          counts := countsModify (cptGet cc "ProgramGenre").counts
            (build_parent_state (cptGet cc "ProgramGenre").parents
              (attrsSet attrs "ProgramType" (some pt)))
            (fun r =>
              (((snGet (cptGet cc "ProgramGenre").stateNames "ProgramGenre").filter
                  (fun t => decide (t ≠ pg))).foldl
                (fun acc alt => rowAdd acc alt
                  (if ((snGet (cptGet cc "ProgramGenre").stateNames
                        "ProgramGenre").filter
                        (fun t => decide (t ≠ pg))).isEmpty then 0
                   else min (lr * 0.5) (rowGet r pg * 0.2)
                     / (((snGet (cptGet cc "ProgramGenre").stateNames
                          "ProgramGenre").filter
                          (fun t => decide (t ≠ pg))).length : ℚ)))
                (rowSet r pg
                  (max 1 (rowGet r pg - min (lr * 0.5) (rowGet r pg * 0.2)))))) } := by
  unfold update_program_genre_cpd
  rw [if_neg (by rw [hk]; exact fun h => Bool.noConfusion h)]
  dsimp only
  rw [if_neg (by simp), if_pos rfl, cptGet_cptSet_self]

/-! ### Arithmetic of one feedback step -/

theorem accepted_prob_arith (c T lr : ℚ) (hT : 0 < T) (hlr : 0 < lr) :
    (c < T → c / T < (c + lr) / (T + lr)) ∧
    (c ≤ T → (c + lr) / (T + lr) ≤ 1) := by
  constructor
  · intro hlt
    rw [div_lt_div_iff hT (by linarith)]
    nlinarith
  · intro hle
    rw [div_le_one (by linarith)]
    linarith

theorem rejected_prob_arith (c T p n T' : ℚ) (hT : 0 < T) (hc : 1 ≤ c)
    (hp : 0 < p) (hn : n = max 1 (c - p)) (hT' : T' = T - c + n + p) :
    n / T' < c / T ∧ 0 < n / T' := by
  have hn1 : 1 ≤ n := hn ▸ le_max_left _ _
  have hncp : c - p ≤ n := hn ▸ le_max_right _ _
  have hnc : n ≤ c := by
    rw [hn]; exact max_le hc (by linarith)
  have hTT' : T ≤ T' := by linarith
  have hT'0 : 0 < T' := lt_of_lt_of_le hT hTT'
  constructor
  · rw [div_lt_div_iff hT'0 hT]
    rcases lt_or_eq_of_le hnc with hlt | heq
    · calc n * T < c * T := by nlinarith
        _ ≤ c * T' := by nlinarith
    · have hTp : T' = T + p := by rw [hT', heq]; ring
      subst heq
      rw [hTp]
      nlinarith
  · exact div_pos (by linarith) hT'0

theorem rejected_transform_total (r : Row) (s : String) (states : List String)
    (lr : ℚ) (hmem : s ∈ rowKeys r)
    (halts : states.filter (fun t => decide (t ≠ s)) ≠ []) :
    rowTotal ((states.filter (fun t => decide (t ≠ s))).foldl
        (fun acc alt => rowAdd acc alt
          (if (states.filter (fun t => decide (t ≠ s))).isEmpty then 0
           else min (lr * 0.5) (rowGet r s * 0.2)
             / ((states.filter (fun t => decide (t ≠ s))).length : ℚ)))
        (rowSet r s (max 1 (rowGet r s - min (lr * 0.5) (rowGet r s * 0.2)))))
      = rowTotal r - rowGet r s
        + max 1 (rowGet r s - min (lr * 0.5) (rowGet r s * 0.2))
        + min (lr * 0.5) (rowGet r s * 0.2) := by
  have hlen : ((states.filter (fun t => decide (t ≠ s))).length : ℚ) ≠ 0 := by
    simp only [ne_eq, Nat.cast_eq_zero, List.length_eq_zero]
    exact halts
  rw [rowTotal_fold_rowAdd, rowTotal_rowSet_mem r s _ hmem,
    if_neg (by rw [List.isEmpty_iff]; exact halts)]
  congr 1
  rw [mul_comm]
  exact div_mul_cancel₀ _ hlen

/-! ### C4 -/

/-- Counterexample to C4 as stated.  With pseudo-counts `{a: 1/2, b: 99/2}`
(as `initialize_cpt_counts` produces from probability 0.01 and virtual
sample size 50) one `rejected` event for state `a` *raises* its count to
the floor 1 and its rebuilt probability strictly increases.  Moreover with
counts `{a: 50, b: 0}` an `accepted` event leaves the probability of `a`
at exactly 1 (no strict increase), and for a single-state variable a
`rejected` event leaves the probability at exactly 1 (no strict
decrease). -/
theorem C4_counterexample :
    cpdEntry (build_cpd_from_counts "ProgramType"
        (cptGet (update_program_type_cpd [] ccD "a" [] "rejected" 50).2
          "ProgramType")) "a" []
      > cpdEntry (build_cpd_from_counts "ProgramType"
          (cptGet ccD "ProgramType")) "a" []
    ∧ cpdEntry (build_cpd_from_counts "ProgramType"
        (cptGet (update_program_type_cpd [] ccE "a" [] "accepted" 50).2
          "ProgramType")) "a" []
      = cpdEntry (build_cpd_from_counts "ProgramType"
          (cptGet ccE "ProgramType")) "a" []
    ∧ cpdEntry (build_cpd_from_counts "ProgramType"
        (cptGet (update_program_type_cpd [] ccF "a" [] "rejected" 50).2
          "ProgramType")) "a" []
      = cpdEntry (build_cpd_from_counts "ProgramType"
          (cptGet ccF "ProgramType")) "a" [] := by
  norm_num [cpdEntry, build_cpd_from_counts, update_program_type_cpd, ccD, ccE,
    ccF, cptGet, countsHasKey, countsGet, countsModify, build_parent_state,
    rowGet, rowSet, rowAdd, rowTotal, snGet, listProd, idxOf, cptSet,
    List.filter_cons, List.filter_nil, List.foldl_cons, List.foldl_nil,
    (by decide : ("b" : String) ≠ "a"), (by decide : ("a" : String) ≠ "b")]

/-- C4 (amended): for the adapted variable (`update_program_type_cpd`), a
parent-state key present in the counts table and a recommended state,
an `accepted` event adds the learning-rate constant to the state's count
and — provided the learning rate is positive and the state's probability
was strictly below 1 (count < row total) — strictly increases its rebuilt
probability, which stays bounded by 1; a `rejected` event — provided the
state's current count is at least 1 and another state exists — strictly
decreases the rebuilt probability while keeping it strictly positive, and
leaves the count at least 1, so the same bounds apply to each of N
consecutive events. -/
theorem C4_amended_feedback_monotonicity (m : Model) (cc : CptCounts)
    (pt : String) (attrs : Attrs) (lr : ℚ) (tpc : List String)
    (hlr : 0 < lr)
    (hkT : countsHasKey (cptGet cc "ProgramType").counts
      (build_parent_state (cptGet cc "ProgramType").parents attrs) = true)
    (hpsT : build_parent_state (cptGet cc "ProgramType").parents attrs
      = tpc.map some)
    (hpcT : tpc ∈ listProd ((cptGet cc "ProgramType").parents.map
      (fun p => snGet (cptGet cc "ProgramType").stateNames p)))
    (hsT : pt ∈ snGet (cptGet cc "ProgramType").stateNames "ProgramType")
    (hndT : (snGet (cptGet cc "ProgramType").stateNames "ProgramType").Nodup)
    (hTT : 0 < rowTotal (countsGet (cptGet cc "ProgramType").counts
      (tpc.map some))) :
    rowGet (countsGet
        (cptGet (update_program_type_cpd m cc pt attrs "accepted" lr).2
          "ProgramType").counts (tpc.map some)) pt
      = rowGet (countsGet (cptGet cc "ProgramType").counts (tpc.map some)) pt
        + lr
    ∧ (rowGet (countsGet (cptGet cc "ProgramType").counts (tpc.map some)) pt
        < rowTotal (countsGet (cptGet cc "ProgramType").counts (tpc.map some)) →
       cpdEntry (build_cpd_from_counts "ProgramType" (cptGet cc "ProgramType"))
           pt tpc
         < cpdEntry (build_cpd_from_counts "ProgramType"
            (cptGet (update_program_type_cpd m cc pt attrs "accepted" lr).2
              "ProgramType")) pt tpc)
    ∧ (rowGet (countsGet (cptGet cc "ProgramType").counts (tpc.map some)) pt
        ≤ rowTotal (countsGet (cptGet cc "ProgramType").counts (tpc.map some)) →
       cpdEntry (build_cpd_from_counts "ProgramType"
          (cptGet (update_program_type_cpd m cc pt attrs "accepted" lr).2
            "ProgramType")) pt tpc ≤ 1)
    ∧ (1 ≤ rowGet (countsGet (cptGet cc "ProgramType").counts (tpc.map some)) pt →
       (snGet (cptGet cc "ProgramType").stateNames "ProgramType").filter
          (fun t => decide (t ≠ pt)) ≠ [] →
       cpdEntry (build_cpd_from_counts "ProgramType"
            (cptGet (update_program_type_cpd m cc pt attrs "rejected" lr).2
              "ProgramType")) pt tpc
         < cpdEntry (build_cpd_from_counts "ProgramType"
            (cptGet cc "ProgramType")) pt tpc
       ∧ 0 < cpdEntry (build_cpd_from_counts "ProgramType"
            (cptGet (update_program_type_cpd m cc pt attrs "rejected" lr).2
              "ProgramType")) pt tpc
       ∧ 1 ≤ rowGet (countsGet
            (cptGet (update_program_type_cpd m cc pt attrs "rejected" lr).2
              "ProgramType").counts (tpc.map some)) pt) := by
  have hk' : countsHasKey (cptGet cc "ProgramType").counts (tpc.map some)
      = true := by rw [← hpsT]; exact hkT
  have hA := update_program_type_cpd_accepted_entry m cc pt attrs lr hkT
  rw [hpsT] at hA
  have hrA : countsGet
      (cptGet (update_program_type_cpd m cc pt attrs "accepted" lr).2
        "ProgramType").counts (tpc.map some)
      = rowAdd (countsGet (cptGet cc "ProgramType").counts (tpc.map some)) pt
          lr := by
    rw [hA]
    exact countsGet_countsModify_self _ _ _ hk'
  have hEold : cpdEntry (build_cpd_from_counts "ProgramType"
        (cptGet cc "ProgramType")) pt tpc
      = rowGet (countsGet (cptGet cc "ProgramType").counts (tpc.map some)) pt
        / rowTotal (countsGet (cptGet cc "ProgramType").counts (tpc.map some)) := by
    rw [cpdEntry_build "ProgramType" (cptGet cc "ProgramType") pt tpc hsT hpcT,
      if_pos hTT]
  have hsA : pt ∈ snGet (cptGet
      (update_program_type_cpd m cc pt attrs "accepted" lr).2
        "ProgramType").stateNames "ProgramType" := by
    rw [hA]; exact hsT
  have hpcA : tpc ∈ listProd ((cptGet
      (update_program_type_cpd m cc pt attrs "accepted" lr).2
        "ProgramType").parents.map (fun p => snGet (cptGet
      (update_program_type_cpd m cc pt attrs "accepted" lr).2
        "ProgramType").stateNames p)) := by
    rw [hA]; exact hpcT
  have hEA : cpdEntry (build_cpd_from_counts "ProgramType"
        (cptGet (update_program_type_cpd m cc pt attrs "accepted" lr).2
          "ProgramType")) pt tpc
      = (rowGet (countsGet (cptGet cc "ProgramType").counts (tpc.map some)) pt
          + lr)
        / (rowTotal (countsGet (cptGet cc "ProgramType").counts (tpc.map some))
          + lr) := by
    rw [cpdEntry_build "ProgramType" _ pt tpc hsA hpcA, hrA, rowTotal_rowAdd,
      if_pos (by linarith), rowGet_rowAdd_self]
  refine ⟨?_, ?_, ?_, ?_⟩
  · rw [hrA, rowGet_rowAdd_self]
  · intro hclt
    rw [hEold, hEA]
    exact (accepted_prob_arith _ _ lr hTT hlr).1 hclt
  · intro hcle
    rw [hEA]
    exact (accepted_prob_arith _ _ lr hTT hlr).2 hcle
  · intro h1c halts
    have hc0 : (0 : ℚ) < rowGet (countsGet (cptGet cc "ProgramType").counts
        (tpc.map some)) pt := by linarith
    have hmem : pt ∈ rowKeys (countsGet (cptGet cc "ProgramType").counts
        (tpc.map some)) :=
      mem_rowKeys_of_rowGet_ne _ _ (by linarith)
    have hp0 : (0 : ℚ) < min (lr * 0.5)
        (rowGet (countsGet (cptGet cc "ProgramType").counts (tpc.map some)) pt
          * 0.2) :=
      lt_min (by linarith) (by nlinarith)
    have hR := update_program_type_cpd_rejected_entry m cc pt attrs lr hkT
    rw [hpsT] at hR
    have hrR : countsGet
        (cptGet (update_program_type_cpd m cc pt attrs "rejected" lr).2
          "ProgramType").counts (tpc.map some)
        = (((snGet (cptGet cc "ProgramType").stateNames "ProgramType").filter
            (fun t => decide (t ≠ pt))).foldl
            (fun acc alt => rowAdd acc alt
              (if ((snGet (cptGet cc "ProgramType").stateNames
                    "ProgramType").filter (fun t => decide (t ≠ pt))).isEmpty
               then 0
               else min (lr * 0.5)
                 (rowGet (countsGet (cptGet cc "ProgramType").counts
                    (tpc.map some)) pt * 0.2)
                 / (((snGet (cptGet cc "ProgramType").stateNames
                      "ProgramType").filter
                      (fun t => decide (t ≠ pt))).length : ℚ)))
            (rowSet (countsGet (cptGet cc "ProgramType").counts (tpc.map some))
              pt
              (max 1 (rowGet (countsGet (cptGet cc "ProgramType").counts
                  (tpc.map some)) pt
                - min (lr * 0.5)
                  (rowGet (countsGet (cptGet cc "ProgramType").counts
                    (tpc.map some)) pt * 0.2))))) := by
      rw [hR]
      exact countsGet_countsModify_self _ _ _ hk'
    have hfacts := rejected_transform_facts
      (countsGet (cptGet cc "ProgramType").counts (tpc.map some)) pt
      (snGet (cptGet cc "ProgramType").stateNames "ProgramType") lr hndT
    have htot := rejected_transform_total
      (countsGet (cptGet cc "ProgramType").counts (tpc.map some)) pt
      (snGet (cptGet cc "ProgramType").stateNames "ProgramType") lr hmem halts
    have harith := rejected_prob_arith
      (rowGet (countsGet (cptGet cc "ProgramType").counts (tpc.map some)) pt)
      (rowTotal (countsGet (cptGet cc "ProgramType").counts (tpc.map some)))
      (min (lr * 0.5)
        (rowGet (countsGet (cptGet cc "ProgramType").counts (tpc.map some)) pt
          * 0.2))
      (max 1 (rowGet (countsGet (cptGet cc "ProgramType").counts
          (tpc.map some)) pt
        - min (lr * 0.5)
          (rowGet (countsGet (cptGet cc "ProgramType").counts (tpc.map some))
            pt * 0.2)))
      (rowTotal (countsGet (cptGet cc "ProgramType").counts (tpc.map some))
        - rowGet (countsGet (cptGet cc "ProgramType").counts (tpc.map some)) pt
        + max 1 (rowGet (countsGet (cptGet cc "ProgramType").counts
            (tpc.map some)) pt
          - min (lr * 0.5)
            (rowGet (countsGet (cptGet cc "ProgramType").counts (tpc.map some))
              pt * 0.2))
        + min (lr * 0.5)
          (rowGet (countsGet (cptGet cc "ProgramType").counts (tpc.map some))
            pt * 0.2))
      hTT h1c hp0 rfl rfl
    have hT'pos : (0 : ℚ) < rowTotal (countsGet (cptGet cc "ProgramType").counts
          (tpc.map some))
        - rowGet (countsGet (cptGet cc "ProgramType").counts (tpc.map some)) pt
        + max 1 (rowGet (countsGet (cptGet cc "ProgramType").counts
            (tpc.map some)) pt
          - min (lr * 0.5)
            (rowGet (countsGet (cptGet cc "ProgramType").counts (tpc.map some))
              pt * 0.2))
        + min (lr * 0.5)
          (rowGet (countsGet (cptGet cc "ProgramType").counts (tpc.map some))
            pt * 0.2) := by
      have h1 : rowGet (countsGet (cptGet cc "ProgramType").counts
            (tpc.map some)) pt
          - min (lr * 0.5)
            (rowGet (countsGet (cptGet cc "ProgramType").counts (tpc.map some))
              pt * 0.2)
          ≤ max 1 (rowGet (countsGet (cptGet cc "ProgramType").counts
              (tpc.map some)) pt
            - min (lr * 0.5)
              (rowGet (countsGet (cptGet cc "ProgramType").counts
                (tpc.map some)) pt * 0.2)) := le_max_right _ _
      linarith
    have hER : cpdEntry (build_cpd_from_counts "ProgramType"
          (cptGet (update_program_type_cpd m cc pt attrs "rejected" lr).2
            "ProgramType")) pt tpc
        = max 1 (rowGet (countsGet (cptGet cc "ProgramType").counts
              (tpc.map some)) pt
            - min (lr * 0.5)
              (rowGet (countsGet (cptGet cc "ProgramType").counts
                (tpc.map some)) pt * 0.2))
          / (rowTotal (countsGet (cptGet cc "ProgramType").counts
              (tpc.map some))
            - rowGet (countsGet (cptGet cc "ProgramType").counts
                (tpc.map some)) pt
            + max 1 (rowGet (countsGet (cptGet cc "ProgramType").counts
                (tpc.map some)) pt
              - min (lr * 0.5)
                (rowGet (countsGet (cptGet cc "ProgramType").counts
                  (tpc.map some)) pt * 0.2))
            + min (lr * 0.5)
              (rowGet (countsGet (cptGet cc "ProgramType").counts
                (tpc.map some)) pt * 0.2)) := by
      have hsR : pt ∈ snGet (cptGet
          (update_program_type_cpd m cc pt attrs "rejected" lr).2
            "ProgramType").stateNames "ProgramType" := by
        rw [hR]; exact hsT
      have hpcR : tpc ∈ listProd ((cptGet
          (update_program_type_cpd m cc pt attrs "rejected" lr).2
            "ProgramType").parents.map (fun p => snGet (cptGet
          (update_program_type_cpd m cc pt attrs "rejected" lr).2
            "ProgramType").stateNames p)) := by
        rw [hR]; exact hpcT
      rw [cpdEntry_build "ProgramType" _ pt tpc hsR hpcR, hrR, htot,
        if_pos hT'pos, hfacts.1]
    refine ⟨?_, ?_, ?_⟩
    · rw [hER, hEold]
      exact harith.1
    · rw [hER]
      exact harith.2
    · rw [hrR]
      exact hfacts.2.1

/-- Witness for the amended C4 at the counts of `ccA` (count 10 of 40,
learning rate 50): an accepted event adds 50 to the count, and after a
rejected event the rebuilt probability stays strictly positive. -/
theorem C4_amended_feedback_monotonicity_witness :
    rowGet (countsGet
        (cptGet (update_program_type_cpd [] ccA "a" [] "accepted" 50).2
          "ProgramType").counts (List.map some [])) "a"
      = rowGet (countsGet (cptGet ccA "ProgramType").counts
          (List.map some [])) "a" + 50
    ∧ 0 < cpdEntry (build_cpd_from_counts "ProgramType"
        (cptGet (update_program_type_cpd [] ccA "a" [] "rejected" 50).2
          "ProgramType")) "a" [] :=
  ⟨(C4_amended_feedback_monotonicity [] ccA "a" [] 50 []
      (by norm_num) (by decide) (by decide) (by decide) (by decide) (by decide)
      (by norm_num [ccA, cptGet, countsGet, rowTotal])).1,
   ((C4_amended_feedback_monotonicity [] ccA "a" [] 50 []
      (by norm_num) (by decide) (by decide) (by decide) (by decide) (by decide)
      (by norm_num [ccA, cptGet, countsGet, rowTotal])).2.2.2
      (by norm_num [ccA, cptGet, countsGet, rowGet]) (by decide)).2.1⟩

/-! ### Model-dictionary lemmas and the frame property (C10) -/

theorem modelGet_remove_cpds_ne (m : Model) {v w : String} (h : v ≠ w) :
    modelGet (remove_cpds m w) v = modelGet m v := by
  induction m with
  | nil => rfl
  | cons c rest ih =>
    show modelGet (List.filter _ (c :: rest)) v = _
    rw [List.filter_cons]
    by_cases hw : c.varName = w
    · rw [if_neg (by simp [hw])]
      refine ih.trans ?_
      show _ = List.find? _ (c :: rest)
      rw [List.find?_cons_of_neg _
        (by simp; intro hcv; exact absurd (hcv.symm.trans hw) h)]
      rfl
    · rw [if_pos (by simp [hw])]
      by_cases hc : c.varName = v
      · show List.find? _ (c :: _) = List.find? _ (c :: rest)
        rw [List.find?_cons_of_pos _ (by simp [hc]),
          List.find?_cons_of_pos _ (by simp [hc])]
      · show List.find? _ (c :: _) = List.find? _ (c :: rest)
        rw [List.find?_cons_of_neg _ (by simp [hc]),
          List.find?_cons_of_neg _ (by simp [hc])]
        exact ih

theorem modelGet_append_single_ne (m : Model) (c : TabularCPD) {v : String}
    (h : c.varName ≠ v) :
    modelGet (m ++ [c]) v = modelGet m v := by
  induction m with
  | nil =>
    show List.find? _ [c] = List.find? _ []
    rw [List.find?_cons_of_neg _ (by simp [h])]
  | cons d rest ih =>
    show List.find? _ (d :: (rest ++ [c])) = List.find? _ (d :: rest)
    by_cases hd : d.varName = v
    · rw [List.find?_cons_of_pos _ (by simp [hd]),
        List.find?_cons_of_pos _ (by simp [hd])]
    · rw [List.find?_cons_of_neg _ (by simp [hd]),
        List.find?_cons_of_neg _ (by simp [hd])]
      exact ih

theorem modelGet_add_remove_self (m : Model) (c : TabularCPD) {v : String}
    (h : c.varName = v) :
    modelGet (add_cpds (remove_cpds m v) c) v = some c := by
  unfold add_cpds
  induction m with
  | nil =>
    show List.find? _ ([] ++ [c]) = some c
    rw [List.nil_append, List.find?_cons_of_pos _ (by simp [h])]
  | cons d rest ih =>
    show modelGet (List.filter _ (d :: rest) ++ [c]) v = some c
    rw [List.filter_cons]
    by_cases hd : d.varName = v
    · rw [if_neg (by simp [hd])]
      exact ih
    · rw [if_pos (by simp [hd])]
      show List.find? _ (d :: _) = some c
      rw [List.find?_cons_of_neg _ (by simp [hd])]
      exact ih

theorem update_program_type_cpd_fst_other (m : Model) (cc : CptCounts)
    (pt : String) (attrs : Attrs) (fb : String) (lr : ℚ) {v : String}
    (hv : v ≠ "ProgramType") :
    modelGet (update_program_type_cpd m cc pt attrs fb lr).1 v
      = modelGet m v := by
  unfold update_program_type_cpd
  by_cases hc : countsHasKey (cptGet cc "ProgramType").counts
      (build_parent_state (cptGet cc "ProgramType").parents attrs) = false
  · rw [if_pos hc]
  · rw [if_neg hc]
    show modelGet (add_cpds (remove_cpds m "ProgramType") _) v = modelGet m v
    unfold add_cpds
    rw [modelGet_append_single_ne _ _ (by intro hh; exact hv (by rw [← hh]; rfl)),
      modelGet_remove_cpds_ne _ hv]

theorem update_program_type_cpd_fst_self (m : Model) (cc : CptCounts)
    (pt : String) (attrs : Attrs) (fb : String) (lr : ℚ) :
    modelGet (update_program_type_cpd m cc pt attrs fb lr).1 "ProgramType"
      = modelGet m "ProgramType"
    ∨ modelGet (update_program_type_cpd m cc pt attrs fb lr).1 "ProgramType"
      = some (build_cpd_from_counts "ProgramType"
          (cptGet (update_program_type_cpd m cc pt attrs fb lr).2
            "ProgramType")) := by
  unfold update_program_type_cpd
  by_cases hc : countsHasKey (cptGet cc "ProgramType").counts
      (build_parent_state (cptGet cc "ProgramType").parents attrs) = false
  · rw [if_pos hc]; exact Or.inl rfl
  · rw [if_neg hc]
    refine Or.inr ?_
    dsimp only
    rw [cptGet_cptSet_self]
    exact modelGet_add_remove_self m _ rfl

theorem update_program_genre_cpd_fst_other (m : Model) (cc : CptCounts)
    (pt pg : String) (attrs : Attrs) (fb : String) (lr : ℚ) {v : String}
    (hv : v ≠ "ProgramGenre") :
    modelGet (update_program_genre_cpd m cc pt pg attrs fb lr).1 v
      = modelGet m v := by
  unfold update_program_genre_cpd
  by_cases hc : countsHasKey (cptGet cc "ProgramGenre").counts
      (build_parent_state (cptGet cc "ProgramGenre").parents
        (attrsSet attrs "ProgramType" (some pt))) = false
  · rw [if_pos hc]
  · rw [if_neg hc]
    show modelGet (add_cpds (remove_cpds m "ProgramGenre") _) v = modelGet m v
    unfold add_cpds
    rw [modelGet_append_single_ne _ _ (by intro hh; exact hv (by rw [← hh]; rfl)),
      modelGet_remove_cpds_ne _ hv]

theorem update_program_genre_cpd_fst_self (m : Model) (cc : CptCounts)
    (pt pg : String) (attrs : Attrs) (fb : String) (lr : ℚ) :
    modelGet (update_program_genre_cpd m cc pt pg attrs fb lr).1 "ProgramGenre"
      = modelGet m "ProgramGenre"
    ∨ modelGet (update_program_genre_cpd m cc pt pg attrs fb lr).1
        "ProgramGenre"
      = some (build_cpd_from_counts "ProgramGenre"
          (cptGet (update_program_genre_cpd m cc pt pg attrs fb lr).2
            "ProgramGenre")) := by
  unfold update_program_genre_cpd
  by_cases hc : countsHasKey (cptGet cc "ProgramGenre").counts
      (build_parent_state (cptGet cc "ProgramGenre").parents
        (attrsSet attrs "ProgramType" (some pt))) = false
  · rw [if_pos hc]; exact Or.inl rfl
  · rw [if_neg hc]
    refine Or.inr ?_
    dsimp only
    rw [cptGet_cptSet_self]
    exact modelGet_add_remove_self m _ rfl

theorem cptGet_of_not_hasKey (cc : CptCounts) {v : String}
    (h : cptHasKey cc v = false) : cptGet cc v = CPTInfo.empty := by
  induction cc with
  | nil => rfl
  | cons ke rest ih =>
    obtain ⟨k, e⟩ := ke
    by_cases hk : k = v
    · subst hk; simp [cptHasKey] at h
    · simp only [cptHasKey, if_neg hk] at h
      simp only [cptGet, if_neg hk]
      exact ih h

theorem update_program_type_cpd_of_no_entry (m : Model) (cc : CptCounts)
    (pt : String) (attrs : Attrs) (fb : String) (lr : ℚ)
    (h : cptHasKey cc "ProgramType" = false) :
    update_program_type_cpd m cc pt attrs fb lr = (m, cc) :=
  update_program_type_cpd_noop m cc pt attrs fb lr
    (by rw [cptGet_of_not_hasKey cc h]; rfl)

theorem update_program_genre_cpd_of_no_entry (m : Model) (cc : CptCounts)
    (pt pg : String) (attrs : Attrs) (fb : String) (lr : ℚ)
    (h : cptHasKey cc "ProgramGenre" = false) :
    update_program_genre_cpd m cc pt pg attrs fb lr = (m, cc) :=
  update_program_genre_cpd_noop m cc pt pg attrs fb lr
    (by rw [cptGet_of_not_hasKey cc h]; rfl)

/-- Every `apply_feedback` call either returns its arguments unchanged or
is the composition of the ProgramType update followed by the ProgramGenre
update (each of which no-ops by itself when its entry or key is absent). -/
theorem apply_feedback_char (m : Model) (cc : CptCounts) (st : FeedbackState)
    (lr : ℚ) :
    apply_feedback m cc st lr = (m, cc)
    ∨ ∃ fb pt pg, (fb = "accepted" ∨ fb = "rejected")
        ∧ st.last_recommendation = some ⟨some pt, some pg⟩
        ∧ apply_feedback m cc st lr
          = update_program_genre_cpd
              (update_program_type_cpd m cc pt st.atributes_bn fb lr).1
              (update_program_type_cpd m cc pt st.atributes_bn fb lr).2
              pt pg st.atributes_bn fb lr := by
  obtain ⟨ufb, urec, attrs⟩ := st
  cases ufb with
  | none => exact Or.inl rfl
  | some f =>
    unfold apply_feedback
    dsimp only
    by_cases hf : f = "accepted" ∨ f = "rejected"
    · rw [if_neg (not_not_intro hf)]
      cases urec with
      | none => exact Or.inl rfl
      | some r =>
        obtain ⟨pt?, pg?⟩ := r
        cases pt? with
        | none => exact Or.inl rfl
        | some pt =>
          cases pg? with
          | none => exact Or.inl rfl
          | some pg =>
            dsimp only
            by_cases hpp : pt = "" ∨ pg = ""
            · rw [if_pos hpp]; exact Or.inl rfl
            · rw [if_neg hpp]
              refine Or.inr ⟨f, pt, pg, hf, rfl, ?_⟩
              by_cases htk : cptHasKey cc "ProgramType" = true
              · rw [if_pos htk]
                by_cases hgk : cptHasKey
                    (update_program_type_cpd m cc pt attrs f lr).2
                      "ProgramGenre" = true
                · rw [if_pos hgk]
                · rw [if_neg hgk]
                  rw [update_program_genre_cpd_of_no_entry _ _ pt pg attrs f lr
                    (Bool.not_eq_true _ ▸ hgk)]
              · rw [if_neg htk]
                have hu1 : update_program_type_cpd m cc pt attrs f lr
                    = (m, cc) :=
                  update_program_type_cpd_of_no_entry m cc pt attrs f lr
                    (Bool.not_eq_true _ ▸ htk)
                rw [hu1]
                by_cases hgk : cptHasKey cc "ProgramGenre" = true
                · rw [if_pos hgk]
                · rw [if_neg hgk]
                  rw [update_program_genre_cpd_of_no_entry m cc pt pg attrs f lr
                    (Bool.not_eq_true _ ▸ hgk)]
    · rw [if_pos hf]
      exact Or.inl rfl

theorem frame_of_composed (m : Model) (cc : CptCounts) (pt pg : String)
    (attrs : Attrs) (fb : String) (lr : ℚ) :
    (∀ v, v ≠ "ProgramType" → v ≠ "ProgramGenre" →
      cptGet (update_program_genre_cpd
          (update_program_type_cpd m cc pt attrs fb lr).1
          (update_program_type_cpd m cc pt attrs fb lr).2
          pt pg attrs fb lr).2 v = cptGet cc v
      ∧ modelGet (update_program_genre_cpd
          (update_program_type_cpd m cc pt attrs fb lr).1
          (update_program_type_cpd m cc pt attrs fb lr).2
          pt pg attrs fb lr).1 v = modelGet m v)
    ∧ (modelGet (update_program_genre_cpd
          (update_program_type_cpd m cc pt attrs fb lr).1
          (update_program_type_cpd m cc pt attrs fb lr).2
          pt pg attrs fb lr).1 "ProgramType" = modelGet m "ProgramType"
      ∨ modelGet (update_program_genre_cpd
          (update_program_type_cpd m cc pt attrs fb lr).1
          (update_program_type_cpd m cc pt attrs fb lr).2
          pt pg attrs fb lr).1 "ProgramType"
        = some (build_cpd_from_counts "ProgramType"
            (cptGet (update_program_genre_cpd
              (update_program_type_cpd m cc pt attrs fb lr).1
              (update_program_type_cpd m cc pt attrs fb lr).2
              pt pg attrs fb lr).2 "ProgramType")))
    ∧ (modelGet (update_program_genre_cpd
          (update_program_type_cpd m cc pt attrs fb lr).1
          (update_program_type_cpd m cc pt attrs fb lr).2
          pt pg attrs fb lr).1 "ProgramGenre" = modelGet m "ProgramGenre"
      ∨ modelGet (update_program_genre_cpd
          (update_program_type_cpd m cc pt attrs fb lr).1
          (update_program_type_cpd m cc pt attrs fb lr).2
          pt pg attrs fb lr).1 "ProgramGenre"
        = some (build_cpd_from_counts "ProgramGenre"
            (cptGet (update_program_genre_cpd
              (update_program_type_cpd m cc pt attrs fb lr).1
              (update_program_type_cpd m cc pt attrs fb lr).2
              pt pg attrs fb lr).2 "ProgramGenre"))) := by
  refine ⟨?_, ?_, ?_⟩
  · intro v hvt hvg
    constructor
    · rw [update_program_genre_cpd_snd_other _ _ pt pg attrs fb lr hvg,
        update_program_type_cpd_snd_other m cc pt attrs fb lr hvt]
    · rw [update_program_genre_cpd_fst_other _ _ pt pg attrs fb lr hvg,
        update_program_type_cpd_fst_other m cc pt attrs fb lr hvt]
  · rw [update_program_genre_cpd_fst_other _ _ pt pg attrs fb lr (by simp),
      update_program_genre_cpd_snd_other _ _ pt pg attrs fb lr (by simp)]
    exact update_program_type_cpd_fst_self m cc pt attrs fb lr
  · rcases update_program_genre_cpd_fst_self
      (update_program_type_cpd m cc pt attrs fb lr).1
      (update_program_type_cpd m cc pt attrs fb lr).2
      pt pg attrs fb lr with h | h
    · rw [h, update_program_type_cpd_fst_other m cc pt attrs fb lr (by simp)]
      exact Or.inl rfl
    · exact Or.inr h

/-! ### C10 -/

/-- C10 (frame property): every `apply_feedback` call leaves the counts
entry and the model CPD of every variable other than ProgramType and
ProgramGenre unchanged, and for each of those two variables the model CPD
is either untouched or replaced as a whole by the table freshly built by
`build_cpd_from_counts` for exactly that variable from its updated
counts. -/
theorem C10_apply_feedback_frame (m : Model) (cc : CptCounts)
    (st : FeedbackState) (lr : ℚ) :
    (∀ v, v ≠ "ProgramType" → v ≠ "ProgramGenre" →
      cptGet (apply_feedback m cc st lr).2 v = cptGet cc v
      ∧ modelGet (apply_feedback m cc st lr).1 v = modelGet m v)
    ∧ (modelGet (apply_feedback m cc st lr).1 "ProgramType"
        = modelGet m "ProgramType"
      ∨ modelGet (apply_feedback m cc st lr).1 "ProgramType"
        = some (build_cpd_from_counts "ProgramType"
            (cptGet (apply_feedback m cc st lr).2 "ProgramType")))
    ∧ (modelGet (apply_feedback m cc st lr).1 "ProgramGenre"
        = modelGet m "ProgramGenre"
      ∨ modelGet (apply_feedback m cc st lr).1 "ProgramGenre"
        = some (build_cpd_from_counts "ProgramGenre"
            (cptGet (apply_feedback m cc st lr).2 "ProgramGenre"))) := by
  rcases apply_feedback_char m cc st lr with h | ⟨fb, pt, pg, _, _, h⟩
  · rw [h]
    exact ⟨fun v _ _ => ⟨rfl, rfl⟩, Or.inl rfl, Or.inl rfl⟩
  · rw [h]
    exact frame_of_composed m cc pt pg st.atributes_bn fb lr

/-- Witness for C10: after a rejected event on `ccA`, the counts entry and
model CPD of an unrelated variable are untouched. -/
theorem C10_apply_feedback_frame_witness :
    cptGet (apply_feedback [] ccA
        ⟨some "rejected", some ⟨some "a", some "x"⟩, []⟩ 50).2 "UserAge"
      = cptGet ccA "UserAge"
    ∧ modelGet (apply_feedback [] ccA
        ⟨some "rejected", some ⟨some "a", some "x"⟩, []⟩ 50).1 "UserAge"
      = modelGet ([] : Model) "UserAge" :=
  (C10_apply_feedback_frame [] ccA
    ⟨some "rejected", some ⟨some "a", some "x"⟩, []⟩ 50).1 "UserAge"
    (by decide) (by decide)

/-! ### Row lemmas for the validity invariant -/

theorem rowGet_eq_zero_of_not_mem (r : Row) {s : String}
    (h : s ∉ rowKeys r) : rowGet r s = 0 := by
  induction r with
  | nil => rfl
  | cons kv rest ih =>
    obtain ⟨k, v⟩ := kv
    have hk : k ≠ s := fun hk => h (hk ▸ List.mem_cons_self _ _)
    have hrest : s ∉ rowKeys rest := fun hm => h (List.mem_cons_of_mem _ hm)
    simp only [rowGet, if_neg hk]
    exact ih hrest

theorem rowGet_nonneg (r : Row) (s : String) (h : ∀ kv ∈ r, 0 ≤ kv.2) :
    0 ≤ rowGet r s := by
  induction r with
  | nil => exact le_refl 0
  | cons kv rest ih =>
    obtain ⟨k, v⟩ := kv
    by_cases hk : k = s
    · subst hk
      simpa [rowGet] using h (k, v) (List.mem_cons_self _ _)
    · simp only [rowGet, if_neg hk]
      exact ih (fun kv hm => h kv (List.mem_cons_of_mem _ hm))

theorem rowTotal_nonneg (r : Row) (h : ∀ kv ∈ r, 0 ≤ kv.2) :
    0 ≤ rowTotal r := by
  induction r with
  | nil => exact le_refl 0
  | cons kv rest ih =>
    obtain ⟨k, v⟩ := kv
    simp only [rowTotal, List.map_cons, List.sum_cons] at ih ⊢
    have h0 : (0 : ℚ) ≤ v := h (k, v) (List.mem_cons_self _ _)
    have h1 := ih (fun kv hm => h kv (List.mem_cons_of_mem _ hm))
    linarith

theorem rowGet_le_rowTotal (r : Row) (s : String) (h : ∀ kv ∈ r, 0 ≤ kv.2) :
    rowGet r s ≤ rowTotal r := by
  induction r with
  | nil => exact le_refl 0
  | cons kv rest ih =>
    obtain ⟨k, v⟩ := kv
    have hrest : ∀ kv ∈ rest, 0 ≤ kv.2 :=
      fun kv hm => h kv (List.mem_cons_of_mem _ hm)
    simp only [rowGet, rowTotal, List.map_cons, List.sum_cons] at ih ⊢
    by_cases hk : k = s
    · rw [if_pos hk]
      have := rowTotal_nonneg rest hrest
      simp only [rowTotal] at this
      linarith
    · rw [if_neg hk]
      have h0 : (0 : ℚ) ≤ v := h (k, v) (List.mem_cons_self _ _)
      have := ih hrest
      linarith

theorem sum_if_zero (vs : List String) (k : String) (q : ℚ)
    (h : k ∉ vs) :
    ((vs.map (fun s => if k = s then q else 0)).sum : ℚ) = 0 := by
  induction vs with
  | nil => rfl
  | cons v rest ih =>
    have hk : k ≠ v := fun hk => h (hk ▸ List.mem_cons_self _ _)
    simp only [List.map_cons, List.sum_cons, if_neg hk]
    rw [ih (fun hm => h (List.mem_cons_of_mem _ hm))]
    ring

theorem sum_if_single (vs : List String) (k : String) (q : ℚ)
    (hnd : vs.Nodup) (h : k ∈ vs) :
    ((vs.map (fun s => if k = s then q else 0)).sum : ℚ) = q := by
  induction vs with
  | nil => cases h
  | cons v rest ih =>
    simp only [List.map_cons, List.sum_cons]
    by_cases hk : k = v
    · rw [if_pos hk]
      rw [sum_if_zero rest k q (hk ▸ List.Nodup.not_mem hnd)]
      ring
    · rw [if_neg hk]
      have hmem : k ∈ rest := by
        rcases List.mem_cons.mp h with h1 | h1
        · exact absurd h1 hk
        · exact h1
      rw [ih (List.Nodup.of_cons hnd) hmem]
      ring

theorem sum_map_rowGet (r : Row) (vs : List String) (hvs : vs.Nodup)
    (hsub : rowKeys r ⊆ vs) (hnd : (rowKeys r).Nodup) :
    ((vs.map (fun s => rowGet r s)).sum : ℚ) = rowTotal r := by
  induction r with
  | nil =>
    simp [rowGet, rowTotal]
  | cons kv rest ih =>
    obtain ⟨k, q⟩ := kv
    have hkvs : k ∈ vs := hsub (List.mem_cons_self _ _)
    have hknr : k ∉ rowKeys rest := List.Nodup.not_mem hnd
    have hsub' : rowKeys rest ⊆ vs :=
      fun x hx => hsub (List.mem_cons_of_mem _ hx)
    have hpt : ∀ s, rowGet ((k, q) :: rest) s
        = (if k = s then q else 0) + rowGet rest s := by
      intro s
      by_cases hk : k = s
      · subst hk
        simp [rowGet, rowGet_eq_zero_of_not_mem rest hknr]
      · simp [rowGet, hk]
    calc ((vs.map (fun s => rowGet ((k, q) :: rest) s)).sum : ℚ)
        = ((vs.map (fun s => (if k = s then q else 0) + rowGet rest s)).sum) := by
          congr 1
          exact List.map_congr_left (fun s _ => hpt s)
      _ = ((vs.map (fun s => if k = s then q else 0)).sum : ℚ)
          + ((vs.map (fun s => rowGet rest s)).sum : ℚ) := by
          rw [← List.sum_map_add]
      _ = q + rowTotal rest := by
          rw [sum_if_single vs k q hvs hkvs,
            ih hsub' (List.Nodup.of_cons hnd)]
      _ = rowTotal ((k, q) :: rest) := by
          simp [rowTotal]

theorem list_sum_div (l : List ℚ) (c : ℚ) :
    ((l.map (fun x => x / c)).sum : ℚ) = l.sum / c := by
  induction l with
  | nil => simp
  | cons x rest ih =>
    simp only [List.map_cons, List.sum_cons, ih]
    rw [add_div]

theorem rowKeys_rowAdd (r : Row) (s : String) (x : ℚ) :
    rowKeys (rowAdd r s x)
      = if s ∈ rowKeys r then rowKeys r else rowKeys r ++ [s] := by
  induction r with
  | nil => simp [rowAdd, rowKeys]
  | cons kv rest ih =>
    obtain ⟨k, v⟩ := kv
    by_cases hk : k = s
    · subst hk
      simp [rowAdd, rowKeys]
    · simp only [rowAdd, if_neg hk, rowKeys, List.map_cons] at ih ⊢
      rw [ih]
      by_cases hm : s ∈ List.map Prod.fst rest
      · rw [if_pos hm, if_pos (List.mem_cons_of_mem _ hm)]
      · rw [if_neg hm, if_neg (by
          simp only [List.mem_cons]
          rintro (h1 | h1)
          · exact hk h1.symm
          · exact hm h1)]
        simp

theorem rowKeys_rowSet (r : Row) (s : String) (x : ℚ) :
    rowKeys (rowSet r s x)
      = if s ∈ rowKeys r then rowKeys r else rowKeys r ++ [s] := by
  induction r with
  | nil => simp [rowSet, rowKeys]
  | cons kv rest ih =>
    obtain ⟨k, v⟩ := kv
    by_cases hk : k = s
    · subst hk
      simp [rowSet, rowKeys]
    · simp only [rowSet, if_neg hk, rowKeys, List.map_cons] at ih ⊢
      rw [ih]
      by_cases hm : s ∈ List.map Prod.fst rest
      · rw [if_pos hm, if_pos (List.mem_cons_of_mem _ hm)]
      · rw [if_neg hm, if_neg (by
          simp only [List.mem_cons]
          rintro (h1 | h1)
          · exact hk h1.symm
          · exact hm h1)]
        simp

theorem rowAdd_nonneg (r : Row) (s : String) (x : ℚ)
    (h : ∀ kv ∈ r, 0 ≤ kv.2) (hx : 0 ≤ x) :
    ∀ kv ∈ rowAdd r s x, 0 ≤ kv.2 := by
  induction r with
  | nil =>
    intro kv hm
    simp only [rowAdd, List.mem_singleton] at hm
    subst hm
    exact hx
  | cons kv₀ rest ih =>
    obtain ⟨k, v⟩ := kv₀
    intro kv hm
    unfold rowAdd at hm
    by_cases hk : k = s
    · rw [if_pos hk] at hm
      rcases List.mem_cons.mp hm with hm | hm
      · subst hm
        have hv : (0 : ℚ) ≤ v := h (k, v) (List.mem_cons_self _ _)
        exact add_nonneg hv hx
      · exact h kv (List.mem_cons_of_mem _ hm)
    · rw [if_neg hk] at hm
      rcases List.mem_cons.mp hm with hm | hm
      · subst hm
        exact h (k, v) (List.mem_cons_self _ _)
      · exact ih (fun kv hm1 => h kv (List.mem_cons_of_mem _ hm1)) kv hm

theorem rowSet_nonneg (r : Row) (s : String) (x : ℚ)
    (h : ∀ kv ∈ r, 0 ≤ kv.2) (hx : 0 ≤ x) :
    ∀ kv ∈ rowSet r s x, 0 ≤ kv.2 := by
  induction r with
  | nil =>
    intro kv hm
    simp only [rowSet, List.mem_singleton] at hm
    subst hm
    exact hx
  | cons kv₀ rest ih =>
    obtain ⟨k, v⟩ := kv₀
    intro kv hm
    unfold rowSet at hm
    by_cases hk : k = s
    · rw [if_pos hk] at hm
      rcases List.mem_cons.mp hm with hm | hm
      · subst hm
        exact hx
      · exact h kv (List.mem_cons_of_mem _ hm)
    · rw [if_neg hk] at hm
      rcases List.mem_cons.mp hm with hm | hm
      · subst hm
        exact h (k, v) (List.mem_cons_self _ _)
      · exact ih (fun kv hm1 => h kv (List.mem_cons_of_mem _ hm1)) kv hm

theorem rowTotal_rowSet_not_mem (r : Row) (s : String) (x : ℚ)
    (h : s ∉ rowKeys r) :
    rowTotal (rowSet r s x) = rowTotal r + x := by
  induction r with
  | nil => simp [rowSet, rowTotal]
  | cons kv rest ih =>
    obtain ⟨k, v⟩ := kv
    have hk : k ≠ s := fun hk => h (hk ▸ List.mem_cons_self _ _)
    simp only [rowSet, if_neg hk, rowTotal, List.map_cons, List.sum_cons] at ih ⊢
    rw [ih (fun hm => h (List.mem_cons_of_mem _ hm))]
    ring

theorem rowAdd_keys_nodup (r : Row) (s : String) (x : ℚ)
    (hnd : (rowKeys r).Nodup) : (rowKeys (rowAdd r s x)).Nodup := by
  rw [rowKeys_rowAdd]
  by_cases hm : s ∈ rowKeys r
  · rw [if_pos hm]; exact hnd
  · rw [if_neg hm]
    simpa [List.nodup_append] using ⟨hnd, hm⟩

theorem rowSet_keys_nodup (r : Row) (s : String) (x : ℚ)
    (hnd : (rowKeys r).Nodup) : (rowKeys (rowSet r s x)).Nodup := by
  rw [rowKeys_rowSet]
  by_cases hm : s ∈ rowKeys r
  · rw [if_pos hm]; exact hnd
  · rw [if_neg hm]
    simpa [List.nodup_append] using ⟨hnd, hm⟩

theorem rowKeys_rowAdd_subset (r : Row) (s : String) (x : ℚ) :
    rowKeys (rowAdd r s x) ⊆ rowKeys r ++ [s] := by
  rw [rowKeys_rowAdd]
  by_cases hm : s ∈ rowKeys r
  · rw [if_pos hm]
    exact List.subset_append_left _ _
  · rw [if_neg hm]
    exact List.Subset.refl _

theorem rowKeys_rowSet_subset (r : Row) (s : String) (x : ℚ) :
    rowKeys (rowSet r s x) ⊆ rowKeys r ++ [s] := by
  rw [rowKeys_rowSet]
  by_cases hm : s ∈ rowKeys r
  · rw [if_pos hm]
    exact List.subset_append_left _ _
  · rw [if_neg hm]
    exact List.Subset.refl _

theorem fold_rowAdd_nonneg (alts : List String) (b : ℚ) (r : Row)
    (h : ∀ kv ∈ r, 0 ≤ kv.2) (hb : 0 ≤ b) :
    ∀ kv ∈ alts.foldl (fun acc alt => rowAdd acc alt b) r, 0 ≤ kv.2 := by
  induction alts generalizing r with
  | nil => exact h
  | cons a rest ih =>
    simp only [List.foldl_cons]
    exact ih (rowAdd r a b) (rowAdd_nonneg r a b h hb)

theorem fold_rowAdd_keys_nodup (alts : List String) (b : ℚ) (r : Row)
    (hnd : (rowKeys r).Nodup) :
    (rowKeys (alts.foldl (fun acc alt => rowAdd acc alt b) r)).Nodup := by
  induction alts generalizing r with
  | nil => exact hnd
  | cons a rest ih =>
    simp only [List.foldl_cons]
    exact ih (rowAdd r a b) (rowAdd_keys_nodup r a b hnd)

theorem fold_rowAdd_keys_subset (alts : List String) (b : ℚ) (r : Row) :
    rowKeys (alts.foldl (fun acc alt => rowAdd acc alt b) r)
      ⊆ rowKeys r ++ alts := by
  induction alts generalizing r with
  | nil => simp
  | cons a rest ih =>
    simp only [List.foldl_cons]
    intro x hx
    have := ih (rowAdd r a b) hx
    rcases List.mem_append.mp this with h1 | h1
    · have := rowKeys_rowAdd_subset r a b h1
      rcases List.mem_append.mp this with h2 | h2
      · exact List.mem_append.mpr (Or.inl h2)
      · refine List.mem_append.mpr (Or.inr ?_)
        simp only [List.mem_singleton] at h2
        exact h2 ▸ List.mem_cons_self _ _
    · exact List.mem_append.mpr (Or.inr (List.mem_cons_of_mem _ h1))

/-! ### Counts-table lemmas for the validity invariant -/

theorem countsGet_prop (c : Counts) (k : Key) (P : Row → Prop)
    (hall : ∀ e ∈ c, e.1 = k → P e.2) (hk : countsHasKey c k = true) :
    P (countsGet c k) := by
  induction c with
  | nil => simp [countsHasKey] at hk
  | cons e rest ih =>
    obtain ⟨k₀, r₀⟩ := e
    by_cases h0 : k₀ = k
    · simp only [countsGet, if_pos h0]
      exact hall (k₀, r₀) (List.mem_cons_self _ _) h0
    · simp only [countsGet, if_neg h0]
      simp only [countsHasKey, if_neg h0] at hk
      exact ih (fun e hm he => hall e (List.mem_cons_of_mem _ hm) he) hk

theorem cptHasKey_of_countsHasKey (cc : CptCounts) (v : String) (k : Key)
    (h : countsHasKey (cptGet cc v).counts k = true) :
    cptHasKey cc v = true := by
  by_cases hv : cptHasKey cc v = true
  · exact hv
  · rw [cptGet_of_not_hasKey cc (Bool.not_eq_true _ ▸ hv)] at h
    exact absurd h (by simp [CPTInfo.empty, countsHasKey])

theorem mem_cptGet (cc : CptCounts) (v : String)
    (h : cptHasKey cc v = true) : (v, cptGet cc v) ∈ cc := by
  induction cc with
  | nil => simp [cptHasKey] at h
  | cons e rest ih =>
    obtain ⟨k, i⟩ := e
    by_cases hk : k = v
    · subst hk
      simp only [cptGet, if_pos rfl]
      exact List.mem_cons_self _ _
    · simp only [cptHasKey, if_neg hk] at h
      simp only [cptGet, if_neg hk]
      exact List.mem_cons_of_mem _ (ih h)

theorem mem_cptSet (cc : CptCounts) (v : String) (i : CPTInfo) :
    ∀ e ∈ cptSet cc v i, e = (v, i) ∨ e ∈ cc := by
  induction cc with
  | nil =>
    intro e he
    simp only [cptSet, List.mem_singleton] at he
    exact Or.inl he
  | cons e₀ rest ih =>
    obtain ⟨k, j⟩ := e₀
    intro e he
    unfold cptSet at he
    by_cases hk : k = v
    · rw [if_pos hk] at he
      rcases List.mem_cons.mp he with he | he
      · exact Or.inl (by rw [he, hk])
      · exact Or.inr (List.mem_cons_of_mem _ he)
    · rw [if_neg hk] at he
      rcases List.mem_cons.mp he with he | he
      · exact Or.inr (he ▸ List.mem_cons_self _ _)
      · rcases ih e he with h1 | h1
        · exact Or.inl h1
        · exact Or.inr (List.mem_cons_of_mem _ h1)

theorem getD_map_lt {α β : Type} (l : List α) (f : α → β) (j : Nat) (d : β)
    (d' : α) (hj : j < l.length) :
    (l.map f).getD j d = f (l.getD j d') := by
  rw [List.getD_eq_getElem?_getD, List.getElem?_map,
    List.getElem?_eq_getElem hj, List.getD_eq_getElem?_getD,
    List.getElem?_eq_getElem hj]
  rfl

theorem getD_mem {α : Type} (l : List α) (j : Nat) (d : α)
    (hj : j < l.length) : l.getD j d ∈ l := by
  rw [List.getD_eq_getElem?_getD, List.getElem?_eq_getElem hj]
  exact List.getElem_mem hj

/-! ### A good counts entry rebuilds to a valid probability table -/

theorem build_valid (v : String) (cpt : CPTInfo) (hg : GoodCpt v cpt) :
    ValidProbTable (build_cpd_from_counts v cpt) := by
  obtain ⟨hnd, hpc⟩ := hg
  unfold ValidProbTable build_cpd_from_counts
  dsimp only
  refine ⟨List.length_map _ _, ?_, ?_, ?_⟩
  · intro row hrow
    obtain ⟨s, _, rfl⟩ := List.mem_map.mp hrow
    exact List.length_map _ _
  · intro row hrow x hx
    obtain ⟨s, _, rfl⟩ := List.mem_map.mp hrow
    obtain ⟨pc, hpcm, rfl⟩ := List.mem_map.mp hx
    obtain ⟨_, htot, hnn, _, _⟩ := hpc pc hpcm
    rw [if_pos htot]
    constructor
    · exact div_nonneg (rowGet_nonneg _ _ hnn) (le_of_lt htot)
    · rw [div_le_one htot]
      exact rowGet_le_rowTotal _ _ hnn
  · intro j hj
    rw [List.map_map]
    have hpcj : (listProd (cpt.parents.map
        (fun p => snGet cpt.stateNames p))).getD j [] ∈
        listProd (cpt.parents.map (fun p => snGet cpt.stateNames p)) :=
      getD_mem _ j [] hj
    obtain ⟨_, htot, hnn, hsub, hknd⟩ := hpc _ hpcj
    have hcongr : ∀ s ∈ snGet cpt.stateNames v,
        ((fun row => List.getD row j 0) ∘ fun s =>
          (listProd (cpt.parents.map (fun p => snGet cpt.stateNames p))).map
            (fun pc =>
              if 0 < rowTotal (countsGet cpt.counts (pc.map some))
              then rowGet (countsGet cpt.counts (pc.map some)) s
                / rowTotal (countsGet cpt.counts (pc.map some))
              else 0)) s
        = rowGet (countsGet cpt.counts
            (((listProd (cpt.parents.map (fun p => snGet cpt.stateNames p))).getD
              j []).map some)) s
          / rowTotal (countsGet cpt.counts
            (((listProd (cpt.parents.map (fun p => snGet cpt.stateNames p))).getD
              j []).map some)) := by
      intro s _
      show ((listProd (cpt.parents.map (fun p => snGet cpt.stateNames p))).map
        _).getD j 0 = _
      rw [getD_map_lt _ _ j 0 [] hj, if_pos htot]
    rw [List.map_congr_left hcongr]
    have hmm : (snGet cpt.stateNames v).map (fun s =>
        rowGet (countsGet cpt.counts
          (((listProd (cpt.parents.map (fun p => snGet cpt.stateNames p))).getD
            j []).map some)) s
        / rowTotal (countsGet cpt.counts
          (((listProd (cpt.parents.map (fun p => snGet cpt.stateNames p))).getD
            j []).map some)))
        = ((snGet cpt.stateNames v).map (fun s =>
            rowGet (countsGet cpt.counts
              (((listProd (cpt.parents.map
                (fun p => snGet cpt.stateNames p))).getD j []).map some)) s)).map
          (fun x => x / rowTotal (countsGet cpt.counts
            (((listProd (cpt.parents.map (fun p => snGet cpt.stateNames p))).getD
              j []).map some))) := by
      rw [List.map_map]
      rfl
    rw [hmm, list_sum_div, sum_map_rowGet _ _ hnd hsub hknd]
    exact div_self (ne_of_gt htot)

/-! ### Initialization establishes the invariant -/

theorem countsHasKey_of_mem_keys (c : Counts) (k : Key)
    (h : k ∈ c.map Prod.fst) : countsHasKey c k = true := by
  induction c with
  | nil => cases h
  | cons e rest ih =>
    obtain ⟨k₀, r₀⟩ := e
    by_cases h0 : k₀ = k
    · simp [countsHasKey, h0]
    · simp only [List.map_cons, List.mem_cons] at h
      rcases h with h | h
      · exact absurd h.symm h0
      · simp only [countsHasKey, if_neg h0]
        exact ih h

theorem init_row_keys (vs : List String) (n : Nat) (g : Nat × String → ℚ) :
    rowKeys ((List.enumFrom n vs).map (fun is => (is.2, g is))) = vs := by
  show ((List.enumFrom n vs).map _).map Prod.fst = vs
  rw [List.map_map]
  exact List.enumFrom_map_snd n vs

theorem init_row_nonneg (vs : List String) (n : Nat) (g : Nat × String → ℚ)
    (hg : ∀ is, 0 ≤ g is) :
    ∀ kv ∈ (List.enumFrom n vs).map (fun is => (is.2, g is)), 0 ≤ kv.2 := by
  intro kv hm
  obtain ⟨is, _, rfl⟩ := List.mem_map.mp hm
  exact hg is

theorem init_row_total (g : List (List ℚ)) (j : Nat) (vss : ℚ) :
    ∀ (vs : List String) (vals : List (List ℚ)) (n : Nat),
    (∀ i, g.getD (n + i) [] = vals.getD i []) → vals.length = vs.length →
    rowTotal ((List.enumFrom n vs).map
        (fun is => (is.2, (g.getD is.1 []).getD j 0 * vss)))
      = (vals.map (fun row => row.getD j 0)).sum * vss := by
  intro vs
  induction vs with
  | nil =>
    intro vals n _ hlen
    have hv : vals = [] := List.length_eq_zero.mp hlen
    subst hv
    simp [rowTotal]
  | cons v vs' ih =>
    intro vals n hg hlen
    cases vals with
    | nil => simp at hlen
    | cons row vals' =>
      rw [List.enumFrom_cons]
      simp only [List.map_cons]
      have h0 : g.getD n [] = row := by
        have := hg 0
        rwa [Nat.add_zero] at this
      have hrest := ih vals' (n + 1)
        (fun i => by
          have := hg (1 + i)
          rwa [← Nat.add_assoc, show (row :: vals').getD (1 + i) []
            = vals'.getD i [] from by rw [Nat.add_comm 1 i]; rfl] at this)
        (by simpa using hlen)
      simp only [rowTotal, List.map_cons, List.sum_cons] at hrest ⊢
      rw [hrest, h0]
      ring

theorem getD_nonneg (l : List ℚ) (j : Nat) (hl : ∀ x ∈ l, 0 ≤ x) :
    0 ≤ l.getD j 0 := by
  rcases h2 : l[j]? with _ | x
  · rw [List.getD_eq_getElem?_getD, h2]
    simp
  · rw [List.getD_eq_getElem?_getD, h2]
    simp only [Option.getD_some]
    exact hl x (List.getElem?_mem h2)

theorem valAt_nonneg (cpd : TabularCPD)
    (h : ∀ row ∈ cpd.values, ∀ x ∈ row, 0 ≤ x) (i j : Nat) :
    0 ≤ valAt cpd i j := by
  unfold valAt
  apply getD_nonneg
  intro x hx
  rcases h2 : cpd.values[i]? with _ | row
  · rw [List.getD_eq_getElem?_getD, h2] at hx
    simp at hx
  · rw [List.getD_eq_getElem?_getD, h2] at hx
    simp only [Option.getD_some] at hx
    exact h row (List.getElem?_mem h2) x hx

theorem initialize_good (model : Model) (vss : ℚ) (hvss : 0 < vss)
    (hm : ∀ cpd ∈ model, ValidCpd cpd) :
    GoodCounts (initialize_cpt_counts model vss) := by
  intro ve hve
  unfold initialize_cpt_counts at hve
  obtain ⟨cpd, hcpd, rfl⟩ := List.mem_map.mp hve
  obtain ⟨hnd, _, hlen, _, hnn, hcol⟩ := hm cpd hcpd
  refine ⟨hnd, ?_⟩
  intro pc hpcm
  have hkeys : ((listProd (cpd.parents.map
        (fun p => snGet cpd.stateNames p))).enum.map
        (fun jc => ((jc.2.map some : Key),
          (snGet cpd.stateNames cpd.varName).enum.map
            (fun is => (is.2, valAt cpd is.1 jc.1 * vss))))).map Prod.fst
      = (listProd (cpd.parents.map (fun p => snGet cpd.stateNames p))).map
          (fun pc => pc.map some) := by
    rw [List.map_map]
    show ((listProd (cpd.parents.map (fun p => snGet cpd.stateNames p))).enum.map
      (fun jc => jc.2.map some)) = _
    have : (fun (jc : Nat × List String) => jc.2.map some)
        = (fun pc : List String => pc.map some) ∘ Prod.snd := rfl
    rw [this, ← List.map_map, List.enum_map_snd]
  have hk : countsHasKey ((listProd (cpd.parents.map
        (fun p => snGet cpd.stateNames p))).enum.map
        (fun jc => ((jc.2.map some : Key),
          (snGet cpd.stateNames cpd.varName).enum.map
            (fun is => (is.2, valAt cpd is.1 jc.1 * vss)))))
        (pc.map some) = true := by
    apply countsHasKey_of_mem_keys
    rw [hkeys]
    exact List.mem_map_of_mem _ hpcm
  refine ⟨hk, ?_⟩
  apply countsGet_prop _ _ (RowGood (snGet cpd.stateNames cpd.varName)) ?_ hk
  intro e hme _
  obtain ⟨jc, hjc, rfl⟩ := List.mem_map.mp hme
  have hjlt : jc.1 < (listProd (cpd.parents.map
      (fun p => snGet cpd.stateNames p))).length :=
    List.fst_lt_of_mem_enum hjc
  have htot : rowTotal ((snGet cpd.stateNames cpd.varName).enum.map
      (fun is => (is.2, valAt cpd is.1 jc.1 * vss))) = vss := by
    have := init_row_total cpd.values jc.1 vss
      (snGet cpd.stateNames cpd.varName) cpd.values 0
      (fun i => by rw [Nat.zero_add]) hlen
    rw [show ((snGet cpd.stateNames cpd.varName).enum.map
        (fun is => (is.2, valAt cpd is.1 jc.1 * vss)))
      = ((List.enumFrom 0 (snGet cpd.stateNames cpd.varName)).map
        (fun is => (is.2, (cpd.values.getD is.1 []).getD jc.1 0 * vss)))
      from rfl]
    rw [this, hcol jc.1 hjlt, one_mul]
  refine ⟨?_, ?_, ?_, ?_⟩
  · rw [htot]; exact hvss
  · exact init_row_nonneg _ 0 _ (fun is => mul_nonneg
      (valAt_nonneg cpd hnn is.1 jc.1) (le_of_lt hvss))
  · rw [show ((snGet cpd.stateNames cpd.varName).enum.map
        (fun is => (is.2, valAt cpd is.1 jc.1 * vss)))
      = ((List.enumFrom 0 (snGet cpd.stateNames cpd.varName)).map
        (fun is => (is.2, valAt cpd is.1 jc.1 * vss))) from rfl,
      init_row_keys]
    exact List.Subset.refl _
  · rw [show ((snGet cpd.stateNames cpd.varName).enum.map
        (fun is => (is.2, valAt cpd is.1 jc.1 * vss)))
      = ((List.enumFrom 0 (snGet cpd.stateNames cpd.varName)).map
        (fun is => (is.2, valAt cpd is.1 jc.1 * vss))) from rfl,
      init_row_keys]
    exact hnd

/-! ### Feedback preserves the invariant -/

theorem goodcpt_accepted (cpt : CPTInfo) (v s : String) (key : Key) (lr : ℚ)
    (hg : GoodCpt v cpt) (hs : s ∈ snGet cpt.stateNames v) (hlr : 0 ≤ lr) :
    GoodCpt v { cpt with
      counts := countsModify cpt.counts key (fun r => rowAdd r s lr) } := by
  obtain ⟨hnd, hpc⟩ := hg
  refine ⟨hnd, ?_⟩
  intro pc hpcm
  obtain ⟨hk, htot, hnn, hsub, hknd⟩ := hpc pc hpcm
  refine ⟨by rw [countsHasKey_countsModify]; exact hk, ?_⟩
  show RowGood _ (countsGet (countsModify cpt.counts key _) (pc.map some))
  by_cases hkey : key = pc.map some
  · subst hkey
    rw [countsGet_countsModify_self _ _ _ hk]
    refine ⟨?_, rowAdd_nonneg _ _ _ hnn hlr, ?_, rowAdd_keys_nodup _ _ _ hknd⟩
    · rw [rowTotal_rowAdd]
      linarith
    · intro x hx
      rcases List.mem_append.mp (rowKeys_rowAdd_subset _ s lr hx) with h1 | h1
      · exact hsub h1
      · rw [List.mem_singleton.mp h1]
        exact hs
  · rw [countsGet_countsModify_ne _ _ hkey]
    exact ⟨htot, hnn, hsub, hknd⟩

theorem goodcpt_rejected (cpt : CPTInfo) (v s : String) (key : Key) (lr : ℚ)
    (hg : GoodCpt v cpt) (hs : s ∈ snGet cpt.stateNames v) (hlr : 0 ≤ lr) :
    GoodCpt v { cpt with
      counts := countsModify cpt.counts key (fun r =>
        (((snGet cpt.stateNames v).filter (fun t => decide (t ≠ s))).foldl
          (fun acc alt => rowAdd acc alt
            (if ((snGet cpt.stateNames v).filter
                  (fun t => decide (t ≠ s))).isEmpty then 0
             else min (lr * 0.5) (rowGet r s * 0.2)
               / (((snGet cpt.stateNames v).filter
                    (fun t => decide (t ≠ s))).length : ℚ)))
          (rowSet r s
            (max 1 (rowGet r s - min (lr * 0.5) (rowGet r s * 0.2)))))) } := by
  obtain ⟨hnd, hpc⟩ := hg
  refine ⟨hnd, ?_⟩
  intro pc hpcm
  obtain ⟨hk, htot, hnn, hsub, hknd⟩ := hpc pc hpcm
  refine ⟨by rw [countsHasKey_countsModify]; exact hk, ?_⟩
  show RowGood _ (countsGet (countsModify cpt.counts key _) (pc.map some))
  by_cases hkey : key = pc.map some
  · subst hkey
    rw [countsGet_countsModify_self _ _ _ hk]
    have hb : (0 : ℚ) ≤ (if ((snGet cpt.stateNames v).filter
          (fun t => decide (t ≠ s))).isEmpty then 0
        else min (lr * 0.5)
            (rowGet (countsGet cpt.counts (pc.map some)) s * 0.2)
          / (((snGet cpt.stateNames v).filter
              (fun t => decide (t ≠ s))).length : ℚ)) := by
      by_cases he : ((snGet cpt.stateNames v).filter
          (fun t => decide (t ≠ s))).isEmpty
      · rw [if_pos he]
      · rw [if_neg he]
        apply div_nonneg _ (Nat.cast_nonneg _)
        apply le_min (by linarith)
        have := rowGet_nonneg (countsGet cpt.counts (pc.map some)) s hnn
        nlinarith
    have hmax : (0 : ℚ) ≤ max 1 (rowGet (countsGet cpt.counts (pc.map some)) s
        - min (lr * 0.5)
          (rowGet (countsGet cpt.counts (pc.map some)) s * 0.2)) :=
      le_trans zero_le_one (le_max_left _ _)
    have hnn' := fold_rowAdd_nonneg
      ((snGet cpt.stateNames v).filter (fun t => decide (t ≠ s))) _ _
      (rowSet_nonneg _ s _ hnn hmax) hb
    have hsnot : s ∉ (snGet cpt.stateNames v).filter
        (fun t => decide (t ≠ s)) := by
      intro hmem
      have := List.of_mem_filter hmem
      simp at this
    refine ⟨?_, hnn', ?_, fold_rowAdd_keys_nodup _ _ _
      (rowSet_keys_nodup _ s _ hknd)⟩
    · have h2 := rowGet_le_rowTotal _ s hnn'
      rw [rowGet_fold_rowAdd_not_mem _ _ _ hsnot, rowGet_rowSet_self] at h2
      have h3 : (1 : ℚ) ≤ max 1 (rowGet (countsGet cpt.counts (pc.map some)) s
          - min (lr * 0.5)
            (rowGet (countsGet cpt.counts (pc.map some)) s * 0.2)) :=
        le_max_left _ _
      linarith
    · intro x hx
      rcases List.mem_append.mp (fold_rowAdd_keys_subset _ _ _ hx) with h1 | h1
      · rcases List.mem_append.mp (rowKeys_rowSet_subset _ s _ h1) with h2 | h2
        · exact hsub h2
        · rw [List.mem_singleton.mp h2]
          exact hs
      · exact List.mem_of_mem_filter h1
  · rw [countsGet_countsModify_ne _ _ hkey]
    exact ⟨htot, hnn, hsub, hknd⟩

theorem update_program_type_cpd_good (m : Model) (cc : CptCounts)
    (pt : String) (attrs : Attrs) (fb : String) (lr : ℚ)
    (hgc : GoodCounts cc) (hlr : 0 ≤ lr)
    (hpt : cptHasKey cc "ProgramType" = true →
      pt ∈ snGet (cptGet cc "ProgramType").stateNames "ProgramType") :
    GoodCounts (update_program_type_cpd m cc pt attrs fb lr).2 := by
  unfold update_program_type_cpd
  by_cases hc : countsHasKey (cptGet cc "ProgramType").counts
      (build_parent_state (cptGet cc "ProgramType").parents attrs) = false
  · rw [if_pos hc]
    exact hgc
  · rw [if_neg hc]
    dsimp only
    have hk : countsHasKey (cptGet cc "ProgramType").counts
        (build_parent_state (cptGet cc "ProgramType").parents attrs)
        = true := Bool.not_eq_false _ ▸ hc
    have hhk : cptHasKey cc "ProgramType" = true :=
      cptHasKey_of_countsHasKey cc "ProgramType" _ hk
    have hgood : GoodCpt "ProgramType" (cptGet cc "ProgramType") :=
      hgc _ (mem_cptGet cc "ProgramType" hhk)
    have hptm := hpt hhk
    intro ve hve
    rcases mem_cptSet _ _ _ ve hve with rfl | hm
    · by_cases hacc : fb = "accepted"
      · rw [if_pos hacc]
        exact goodcpt_accepted _ "ProgramType" pt _ lr hgood hptm hlr
      · rw [if_neg hacc]
        by_cases hrej : fb = "rejected"
        · rw [if_pos hrej]
          exact goodcpt_rejected _ "ProgramType" pt _ lr hgood hptm hlr
        · rw [if_neg hrej]
          exact hgood
    · exact hgc ve hm

theorem update_program_genre_cpd_good (m : Model) (cc : CptCounts)
    (pt pg : String) (attrs : Attrs) (fb : String) (lr : ℚ)
    (hgc : GoodCounts cc) (hlr : 0 ≤ lr)
    (hpg : cptHasKey cc "ProgramGenre" = true →
      pg ∈ snGet (cptGet cc "ProgramGenre").stateNames "ProgramGenre") :
    GoodCounts (update_program_genre_cpd m cc pt pg attrs fb lr).2 := by
  unfold update_program_genre_cpd
  by_cases hc : countsHasKey (cptGet cc "ProgramGenre").counts
      (build_parent_state (cptGet cc "ProgramGenre").parents
        (attrsSet attrs "ProgramType" (some pt))) = false
  · rw [if_pos hc]
    exact hgc
  · rw [if_neg hc]
    dsimp only
    have hk : countsHasKey (cptGet cc "ProgramGenre").counts
        (build_parent_state (cptGet cc "ProgramGenre").parents
          (attrsSet attrs "ProgramType" (some pt))) = true :=
      Bool.not_eq_false _ ▸ hc
    have hhk : cptHasKey cc "ProgramGenre" = true :=
      cptHasKey_of_countsHasKey cc "ProgramGenre" _ hk
    have hgood : GoodCpt "ProgramGenre" (cptGet cc "ProgramGenre") :=
      hgc _ (mem_cptGet cc "ProgramGenre" hhk)
    have hpgm := hpg hhk
    intro ve hve
    rcases mem_cptSet _ _ _ ve hve with rfl | hm
    · by_cases hacc : fb = "accepted"
      · rw [if_pos hacc]
        exact goodcpt_accepted _ "ProgramGenre" pg _ lr hgood hpgm hlr
      · rw [if_neg hacc]
        by_cases hrej : fb = "rejected"
        · rw [if_pos hrej]
          exact goodcpt_rejected _ "ProgramGenre" pg _ lr hgood hpgm hlr
        · rw [if_neg hrej]
          exact hgood
    · exact hgc ve hm

theorem namesEq_refl (cc : CptCounts) : NamesEq cc cc := fun _ => ⟨rfl, rfl⟩

theorem namesEq_trans {a b c : CptCounts} (h1 : NamesEq a b)
    (h2 : NamesEq b c) : NamesEq a c :=
  fun v => ⟨(h1 v).1.trans (h2 v).1, (h1 v).2.trans (h2 v).2⟩

theorem update_program_type_cpd_namesEq (m : Model) (cc : CptCounts)
    (pt : String) (attrs : Attrs) (fb : String) (lr : ℚ) :
    NamesEq (update_program_type_cpd m cc pt attrs fb lr).2 cc := by
  unfold update_program_type_cpd
  by_cases hc : countsHasKey (cptGet cc "ProgramType").counts
      (build_parent_state (cptGet cc "ProgramType").parents attrs) = false
  · rw [if_pos hc]
    exact namesEq_refl cc
  · rw [if_neg hc]
    dsimp only
    have hhk : cptHasKey cc "ProgramType" = true :=
      cptHasKey_of_countsHasKey cc "ProgramType" _ (Bool.not_eq_false _ ▸ hc)
    intro v
    constructor
    · rw [cptHasKey_cptSet]
      by_cases hv : v = "ProgramType"
      · subst hv
        simp [hhk]
      · simp [hv]
    · by_cases hv : v = "ProgramType"
      · subst hv
        rw [cptGet_cptSet_self]
      · rw [cptGet_cptSet_ne _ _ (Ne.symm hv)]

theorem update_program_genre_cpd_namesEq (m : Model) (cc : CptCounts)
    (pt pg : String) (attrs : Attrs) (fb : String) (lr : ℚ) :
    NamesEq (update_program_genre_cpd m cc pt pg attrs fb lr).2 cc := by
  unfold update_program_genre_cpd
  by_cases hc : countsHasKey (cptGet cc "ProgramGenre").counts
      (build_parent_state (cptGet cc "ProgramGenre").parents
        (attrsSet attrs "ProgramType" (some pt))) = false
  · rw [if_pos hc]
    exact namesEq_refl cc
  · rw [if_neg hc]
    dsimp only
    have hhk : cptHasKey cc "ProgramGenre" = true :=
      cptHasKey_of_countsHasKey cc "ProgramGenre" _ (Bool.not_eq_false _ ▸ hc)
    intro v
    constructor
    · rw [cptHasKey_cptSet]
      by_cases hv : v = "ProgramGenre"
      · subst hv
        simp [hhk]
      · simp [hv]
    · by_cases hv : v = "ProgramGenre"
      · subst hv
        rw [cptGet_cptSet_self]
      · rw [cptGet_cptSet_ne _ _ (Ne.symm hv)]

theorem okEvent_of_namesEq (cc cc' : CptCounts) (st : FeedbackState) (lr : ℚ)
    (hok : OkEvent cc' st lr) (hne : NamesEq cc cc') : OkEvent cc st lr := by
  obtain ⟨hlr, hrec⟩ := hok
  refine ⟨hlr, ?_⟩
  intro rec h
  obtain ⟨h1, h2⟩ := hrec rec h
  constructor
  · intro pt hpt hk
    rw [(hne "ProgramType").2]
    exact h1 pt hpt (by rw [← (hne "ProgramType").1]; exact hk)
  · intro pg hpg hk
    rw [(hne "ProgramGenre").2]
    exact h2 pg hpg (by rw [← (hne "ProgramGenre").1]; exact hk)

theorem apply_feedback_good (m : Model) (cc : CptCounts) (st : FeedbackState)
    (lr : ℚ) (hgc : GoodCounts cc) (hok : OkEvent cc st lr) :
    GoodCounts (apply_feedback m cc st lr).2 := by
  rcases apply_feedback_char m cc st lr with h | ⟨fb, pt, pg, _, hrec, h⟩
  · rw [h]
    exact hgc
  · rw [h]
    obtain ⟨hlr, hrecs⟩ := hok
    obtain ⟨h1, h2⟩ := hrecs ⟨some pt, some pg⟩ hrec
    apply update_program_genre_cpd_good _ _ pt pg _ fb lr
    · exact update_program_type_cpd_good m cc pt _ fb lr hgc hlr
        (fun hk => h1 pt rfl hk)
    · exact hlr
    · intro hk
      have hne := update_program_type_cpd_namesEq m cc pt st.atributes_bn fb lr
      rw [(hne "ProgramGenre").2]
      exact h2 pg rfl (by rw [← (hne "ProgramGenre").1]; exact hk)

theorem apply_feedback_namesEq (m : Model) (cc : CptCounts)
    (st : FeedbackState) (lr : ℚ) :
    NamesEq (apply_feedback m cc st lr).2 cc := by
  rcases apply_feedback_char m cc st lr with h | ⟨fb, pt, pg, _, _, h⟩
  · rw [h]
    exact namesEq_refl cc
  · rw [h]
    exact namesEq_trans
      (update_program_genre_cpd_namesEq _ _ pt pg st.atributes_bn fb lr)
      (update_program_type_cpd_namesEq m cc pt st.atributes_bn fb lr)

theorem applyEvents_good (cc₀ : CptCounts) (events : List (FeedbackState × ℚ))
    (hoks : ∀ e ∈ events, OkEvent cc₀ e.1 e.2) :
    ∀ (m : Model) (cc : CptCounts), GoodCounts cc → NamesEq cc cc₀ →
      GoodCounts (applyEvents m cc events).2 := by
  induction events with
  | nil =>
    intro m cc hg _
    exact hg
  | cons e rest ih =>
    intro m cc hg hne
    show GoodCounts (applyEvents (apply_feedback m cc e.1 e.2).1
      (apply_feedback m cc e.1 e.2).2 rest).2
    apply ih (fun e' he' => hoks e' (List.mem_cons_of_mem _ he'))
    · exact apply_feedback_good m cc e.1 e.2 hg
        (okEvent_of_namesEq cc cc₀ e.1 e.2
          (hoks e (List.mem_cons_self _ _)) hne)
    · exact namesEq_trans (apply_feedback_namesEq m cc e.1 e.2) hne

/-! ### C3 -/

/-- C3: starting from counts initialized by `initialize_cpt_counts` on a
model whose CPDs are valid probability tables with a positive virtual
sample size, after any finite sequence of `apply_feedback` events (with
nonnegative learning rates and recommended states drawn from the declared
domains) every CPD rebuilt by `build_cpd_from_counts` from any entry of the
counts table — in particular each one installed in the model — is a valid
probability table: every conditional distribution sums to exactly 1 and
every entry lies in `[0, 1]`. -/
theorem C3_cpds_remain_valid (model : Model) (vss : ℚ)
    (events : List (FeedbackState × ℚ))
    (hm : ∀ cpd ∈ model, ValidCpd cpd) (hvss : 0 < vss)
    (hoks : ∀ e ∈ events, OkEvent (initialize_cpt_counts model vss) e.1 e.2) :
    ∀ ve ∈ (applyEvents model (initialize_cpt_counts model vss) events).2,
      ValidProbTable (build_cpd_from_counts ve.1 ve.2) := by
  intro ve hve
  exact build_valid ve.1 ve.2
    (applyEvents_good (initialize_cpt_counts model vss) events hoks model
      (initialize_cpt_counts model vss)
      (initialize_good model vss hvss hm) (namesEq_refl _) ve hve)

/-- The default-valued head of a nonempty list is a member. -/
theorem headD_mem_of_ne_nil {α : Type} (l : List α) (d : α) (h : l ≠ []) :
    l.headD d ∈ l := by
  cases l with
  | nil => exact absurd rfl h
  | cons x r => exact List.mem_cons_self x r

/-- Witness for C3: the one-CPD model `cpdW`, virtual sample size 100,
one accepted event; the single rebuilt table is a valid probability
table. -/
theorem C3_cpds_remain_valid_witness :
    ValidProbTable (build_cpd_from_counts
      ((applyEvents [cpdW] (initialize_cpt_counts [cpdW] 100)
          [(stW, 50)]).2.headD ("", CPTInfo.empty)).1
      ((applyEvents [cpdW] (initialize_cpt_counts [cpdW] 100)
          [(stW, 50)]).2.headD ("", CPTInfo.empty)).2) := by
  have hne : (applyEvents [cpdW] (initialize_cpt_counts [cpdW] 100)
      [(stW, 50)]).2 ≠ [] := by
    intro hnil
    have hkey : cptHasKey (applyEvents [cpdW]
        (initialize_cpt_counts [cpdW] 100) [(stW, 50)]).2 "ProgramType"
        = cptHasKey (initialize_cpt_counts [cpdW] 100) "ProgramType" := by
      show cptHasKey (apply_feedback [cpdW]
        (initialize_cpt_counts [cpdW] 100) stW 50).2 "ProgramType" = _
      exact (apply_feedback_namesEq [cpdW]
        (initialize_cpt_counts [cpdW] 100) stW 50 "ProgramType").1
    rw [hnil] at hkey
    exact absurd hkey (by decide)
  refine C3_cpds_remain_valid [cpdW] 100 [(stW, 50)] ?_ ?_ ?_ _
    (headD_mem_of_ne_nil _ _ hne)
  · intro cpd hc
    obtain rfl := List.mem_singleton.mp hc
    refine ⟨by decide, by decide, by decide, by decide, ?_, ?_⟩
    · intro row hrow x hx
      simp only [cpdW, List.mem_cons, List.not_mem_nil, or_false] at hrow
      rcases hrow with rfl | rfl <;>
        · simp only [List.mem_cons, List.not_mem_nil, or_false] at hx
          rw [hx]
          norm_num
    · intro j hj
      have hj0 : j = 0 := by
        simpa [cpdW, listProd, snGet] using hj
      subst hj0
      show (([[3/10], [7/10]] : List (List ℚ)).map
        (fun row => row.getD 0 0)).sum = 1
      norm_num
  · norm_num
  · intro e he
    obtain rfl := List.mem_singleton.mp he
    refine ⟨by norm_num, ?_⟩
    intro rec hrec
    cases hrec
    constructor
    · intro pt hpt hk
      cases hpt
      decide
    · intro pg hpg hk
      exact absurd hk (by decide)

/-! ### Round-trip of the key serialization (C5 groundwork) -/

theorem splitComma_no_comma (cs : List Char) (h : ',' ∉ cs) :
    splitComma cs = [cs] := by
  induction cs with
  | nil => rfl
  | cons c rest ih =>
    have hc : c ≠ ',' := fun hc => h (hc ▸ List.mem_cons_self _ _)
    simp only [splitComma, if_neg hc]
    rw [ih (fun hm => h (List.mem_cons_of_mem _ hm))]

theorem splitComma_append_comma (x z : List Char) (h : ',' ∉ x) :
    splitComma (x ++ ',' :: z) = x :: splitComma z := by
  induction x with
  | nil => simp [splitComma]
  | cons c x' ih =>
    have hc : c ≠ ',' := fun hc => h (hc ▸ List.mem_cons_self _ _)
    simp only [List.cons_append, splitComma, if_neg hc, List.append_eq]
    rw [ih (fun hm => h (List.mem_cons_of_mem _ hm))]

theorem trimLead_cons_ne (c : Char) (r : List Char) (h : c ≠ ' ') :
    trimLead (c :: r) = c :: r := by
  simp [trimLead, h]

theorem trimLead_cons_space (r : List Char) :
    trimLead (' ' :: r) = trimLead r := by
  simp [trimLead]

theorem trimLead_pyReprItem (os : Option String) :
    trimLead (pyReprItem os) = pyReprItem os := by
  cases os with
  | none => decide
  | some s =>
    show trimLead (quoteChar :: _) = _
    exact trimLead_cons_ne _ _ (by decide)

theorem comma_not_mem_pyReprItem (os : Option String)
    (h : ∀ s, os = some s → simpleStrB s = true) :
    ',' ∉ pyReprItem os := by
  cases os with
  | none => decide
  | some s =>
    intro hm
    show False
    rcases List.mem_cons.mp hm with h1 | h1
    · exact absurd h1.symm (by decide)
    · rcases List.mem_append.mp h1 with h2 | h2
      · have := List.all_eq_true.mp (h s rfl) ',' h2
        simp at this
      · rw [List.mem_singleton] at h2
        exact absurd h2.symm (by decide)

theorem split_trim_join (items : List (List Char)) (hne : items ≠ [])
    (hcomma : ∀ i ∈ items, ',' ∉ i)
    (htrim : ∀ i ∈ items, trimLead i = i) :
    (splitComma (joinCS items)).map trimLead = items := by
  induction items with
  | nil => exact absurd rfl hne
  | cons x rest ih =>
    cases rest with
    | nil =>
      show (splitComma (joinCS [x])).map trimLead = [x]
      rw [show joinCS [x] = x from rfl,
        splitComma_no_comma x (hcomma x (List.mem_cons_self _ _))]
      simp only [List.map_cons, List.map_nil]
      rw [htrim x (List.mem_cons_self _ _)]
    | cons y r =>
      rw [show joinCS (x :: y :: r) = x ++ ',' :: ' ' :: joinCS (y :: r)
          from rfl,
        splitComma_append_comma _ _ (hcomma x (List.mem_cons_self _ _))]
      have hrec := ih (List.cons_ne_nil _ _)
        (fun i hi => hcomma i (List.mem_cons_of_mem _ hi))
        (fun i hi => htrim i (List.mem_cons_of_mem _ hi))
      rcases hsp : splitComma (joinCS (y :: r)) with _ | ⟨h0, t0⟩
      · rw [hsp] at hrec
        simp at hrec
      · rw [hsp] at hrec
        show ((x :: splitComma (' ' :: joinCS (y :: r)))).map trimLead
          = x :: y :: r
        have hsp2 : splitComma (' ' :: joinCS (y :: r))
            = (' ' :: h0) :: t0 := by
          simp only [splitComma, if_neg (by decide : ¬(' ' = ','))]
          rw [hsp]
        rw [hsp2]
        simp only [List.map_cons] at hrec ⊢
        rw [htrim x (List.mem_cons_self _ _), trimLead_cons_space]
        rw [← hrec]

theorem parseItem_pyReprItem (os : Option String)
    (h : ∀ s, os = some s → simpleStrB s = true) :
    parseItem (pyReprItem os) = some os := by
  cases os with
  | none => decide
  | some s =>
    show parseItem (quoteChar :: (s.data ++ [quoteChar])) = some (some s)
    unfold parseItem
    rw [if_neg ?hnone]
    case hnone =>
      intro hh
      have := congrArg (fun l => List.head? l) hh
      simp only [List.head?_cons, Option.some.injEq] at this
      exact absurd this (by decide)
    show (if quoteChar = quoteChar then
        if (s.data ++ [quoteChar]).getLast? = some quoteChar
        then some (some ⟨(s.data ++ [quoteChar]).dropLast⟩) else none
      else none) = some (some s)
    rw [if_pos rfl, if_pos (by rw [List.getLast?_concat]),
      List.dropLast_concat]

theorem mapM_parseItem (k : Key) (h : simpleKeyB k = true) :
    (k.map pyReprItem).mapM parseItem = some k := by
  induction k with
  | nil => rfl
  | cons os rest ih =>
    have h1 : ∀ s, os = some s → simpleStrB s = true := by
      intro s hs
      subst hs
      have := List.all_eq_true.mp h (some s) (List.mem_cons_self _ _)
      simpa [simpleKeyB] using this
    have h2 : simpleKeyB rest = true := by
      apply List.all_eq_true.mpr
      intro os' hm
      exact List.all_eq_true.mp h os' (List.mem_cons_of_mem _ hm)
    simp only [List.map_cons, List.mapM_cons, parseItem_pyReprItem os h1,
      ih h2, Option.pure_def, Option.bind_eq_bind, Option.some_bind]

theorem pyReprItem_ne_nil (os : Option String) : pyReprItem os ≠ [] := by
  cases os with
  | none => exact List.cons_ne_nil _ _
  | some s => exact List.cons_ne_nil _ _

theorem joinCS_ne_nil (items : List (List Char)) (hne : items ≠ [])
    (h : ∀ i ∈ items, i ≠ []) : joinCS items ≠ [] := by
  cases items with
  | nil => exact absurd rfl hne
  | cons x rest =>
    cases rest with
    | nil => exact h x (List.mem_cons_self _ _)
    | cons y r =>
      show x ++ ',' :: ' ' :: joinCS (y :: r) ≠ []
      simp

theorem joinCS_getLast?_ne_comma (items : List (List Char))
    (hcomma : ∀ i ∈ items, ',' ∉ i) (hne : ∀ i ∈ items, i ≠ []) :
    (joinCS items).getLast? ≠ some ',' := by
  induction items with
  | nil => simp [joinCS]
  | cons x rest ih =>
    cases rest with
    | nil =>
      show x.getLast? ≠ some ','
      intro hc
      exact hcomma x (List.mem_cons_self _ _) (List.mem_of_getLast?_eq_some hc)
    | cons y r =>
      show (x ++ ',' :: ' ' :: joinCS (y :: r)).getLast? ≠ some ','
      rw [List.getLast?_append_of_ne_nil _ (List.cons_ne_nil _ _),
        List.getLast?_cons_cons]
      have hj : joinCS (y :: r) ≠ [] :=
        joinCS_ne_nil _ (List.cons_ne_nil _ _)
          (fun i hi => hne i (List.mem_cons_of_mem _ hi))
      rcases hjc : joinCS (y :: r) with _ | ⟨a, t⟩
      · exact absurd hjc hj
      · rw [List.getLast?_cons_cons, ← hjc]
        exact ih (fun i hi => hcomma i (List.mem_cons_of_mem _ hi))
          (fun i hi => hne i (List.mem_cons_of_mem _ hi))

theorem pyEvalKey_pyReprKey (k : Key) (h : simpleKeyB k = true) :
    pyEvalKey (pyReprKey k) = some k := by
  have hcomma : ∀ i ∈ k.map pyReprItem, ',' ∉ i := by
    intro i hi
    obtain ⟨os, hos, rfl⟩ := List.mem_map.mp hi
    apply comma_not_mem_pyReprItem
    intro s hs
    subst hs
    simpa [simpleKeyB] using List.all_eq_true.mp h (some s) hos
  have hinil : ∀ i ∈ k.map pyReprItem, i ≠ [] := by
    intro i hi
    obtain ⟨os, _, rfl⟩ := List.mem_map.mp hi
    exact pyReprItem_ne_nil os
  have htrim : ∀ i ∈ k.map pyReprItem, trimLead i = i := by
    intro i hi
    obtain ⟨os, _, rfl⟩ := List.mem_map.mp hi
    exact trimLead_pyReprItem os
  show pyEvalKeyChars (pyReprKeyChars k) = some k
  match k with
  | [] => decide
  | [os] =>
    show pyEvalKeyChars ('(' ::
      ((joinCS [pyReprItem os]) ++ [','] ++ [')'])) = some [os]
    unfold pyEvalKeyChars
    dsimp only
    rw [if_pos rfl]
    rw [if_pos (List.getLast?_concat _)]
    rw [List.dropLast_concat]
    rw [if_pos (List.getLast?_concat _)]
    rw [List.dropLast_concat]
    rw [if_neg (show ¬(joinCS [pyReprItem os] = []) from by
      rw [show joinCS [pyReprItem os] = pyReprItem os from rfl]
      exact pyReprItem_ne_nil os)]
    rw [show joinCS [pyReprItem os] = pyReprItem os from rfl]
    rw [splitComma_no_comma _ (hcomma _ (by
      rw [show (List.map pyReprItem [os]) = [pyReprItem os] from rfl]
      exact List.mem_cons_self _ _))]
    simp only [List.map_cons, List.map_nil, trimLead_pyReprItem]
    exact mapM_parseItem [os] h
  | os :: os2 :: r =>
    show pyEvalKeyChars ('(' ::
      ((joinCS ((os :: os2 :: r).map pyReprItem)) ++ [] ++ [')']))
      = some (os :: os2 :: r)
    unfold pyEvalKeyChars
    dsimp only
    rw [if_pos rfl]
    rw [List.append_nil]
    rw [if_pos (List.getLast?_concat _), List.dropLast_concat]
    rw [if_neg (joinCS_getLast?_ne_comma _ hcomma hinil)]
    rw [if_neg (joinCS_ne_nil _ (by simp) hinil)]
    rw [split_trim_join _ (by simp) hcomma htrim]
    exact mapM_parseItem _ h

theorem mapM_map_id {α β : Type} (l : List α) (f : α → β) (g : β → Option α)
    (h : ∀ x ∈ l, g (f x) = some x) : (l.map f).mapM g = some l := by
  induction l with
  | nil => rfl
  | cons x rest ih =>
    rw [List.map_cons, List.mapM_cons, h x (List.mem_cons_self _ _),
      ih (fun x hx => h x (List.mem_cons_of_mem _ hx))]
    rfl

/-! ### C5 -/

/-- C5: saving a counts structure with `save_cpt_counts` and reloading it
with `load_cpt_counts` reproduces the same parents, state names, keys and
count values — and hence `build_cpd_from_counts` yields identical CPDs —
for every counts table whose key components are plain labels (no quote,
backslash or comma characters, the regime in which the `str`/`eval` pair
is modelled exactly). -/
theorem C5_save_load_roundtrip (cc : CptCounts)
    (h : ∀ vi ∈ cc, ∀ kr ∈ vi.2.counts, simpleKeyB kr.1 = true) :
    load_cpt_counts (save_cpt_counts cc) = some cc
    ∧ ∀ cc', load_cpt_counts (save_cpt_counts cc) = some cc' →
        cc'.map (fun vi => build_cpd_from_counts vi.1 vi.2)
          = cc.map (fun vi => build_cpd_from_counts vi.1 vi.2) := by
  have h1 : load_cpt_counts (save_cpt_counts cc) = some cc := by
    unfold load_cpt_counts save_cpt_counts
    apply mapM_map_id
    intro vi hvi
    have hinner : ((vi.2.counts.map
        (fun kr => (pyReprKey kr.1, kr.2))).mapM
        (fun kr => (pyEvalKey kr.1).map (fun k => (k, kr.2))))
        = some vi.2.counts := by
      apply mapM_map_id
      intro kr hkr
      show (pyEvalKey (pyReprKey kr.1)).map (fun k => (k, kr.2)) = some kr
      rw [pyEvalKey_pyReprKey kr.1 (h vi hvi kr hkr)]
      rfl
    show (((vi.2.counts.map (fun kr => (pyReprKey kr.1, kr.2))).mapM
        (fun kr => (pyEvalKey kr.1).map (fun k => (k, kr.2)))).map _)
      = some vi
    rw [hinner]
    rfl
  refine ⟨h1, ?_⟩
  intro cc' hcc'
  rw [h1] at hcc'
  cases hcc'
  rfl

/-- Witness for C5 at the concrete table `ccA`. -/
theorem C5_save_load_roundtrip_witness :
    load_cpt_counts (save_cpt_counts ccA) = some ccA :=
  (C5_save_load_roundtrip ccA (by decide)).1

/-! ### Sorting lemmas -/

theorem mem_insDesc (x z : String × ℚ) (l : List (String × ℚ)) :
    z ∈ insDesc x l ↔ z = x ∨ z ∈ l := by
  induction l with
  | nil => simp [insDesc]
  | cons y r ih =>
    unfold insDesc
    by_cases h : x.2 < y.2
    · rw [if_pos h]
      simp only [List.mem_cons, ih]
      tauto
    · rw [if_neg h]
      simp only [List.mem_cons]

theorem perm_insDesc (x : String × ℚ) (l : List (String × ℚ)) :
    (insDesc x l).Perm (x :: l) := by
  induction l with
  | nil => simp [insDesc]
  | cons y r ih =>
    unfold insDesc
    by_cases h : x.2 < y.2
    · rw [if_pos h]
      exact (ih.cons y).trans (List.Perm.swap x y r)
    · rw [if_neg h]

theorem perm_sortDesc (l : List (String × ℚ)) : (sortDesc l).Perm l := by
  induction l with
  | nil => simp [sortDesc]
  | cons x r ih =>
    unfold sortDesc
    exact (perm_insDesc x (sortDesc r)).trans (ih.cons x)

theorem pairwise_insDesc (x : String × ℚ) (l : List (String × ℚ))
    (h : l.Pairwise (fun a b => b.2 ≤ a.2)) :
    (insDesc x l).Pairwise (fun a b => b.2 ≤ a.2) := by
  induction l with
  | nil => simp [insDesc]
  | cons y r ih =>
    rw [List.pairwise_cons] at h
    unfold insDesc
    by_cases hlt : x.2 < y.2
    · rw [if_pos hlt, List.pairwise_cons]
      refine ⟨?_, ih h.2⟩
      intro z hz
      rcases (mem_insDesc x z r).mp hz with hzx | hzr
      · rw [hzx]; exact le_of_lt hlt
      · exact h.1 z hzr
    · rw [if_neg hlt, List.pairwise_cons]
      refine ⟨?_, List.pairwise_cons.mpr h⟩
      intro z hz
      rcases List.mem_cons.mp hz with hzy | hzr
      · rw [hzy]; exact le_of_not_lt hlt
      · exact le_trans (h.1 z hzr) (le_of_not_lt hlt)

theorem pairwise_sortDesc (l : List (String × ℚ)) :
    (sortDesc l).Pairwise (fun a b => b.2 ≤ a.2) := by
  induction l with
  | nil => simp [sortDesc]
  | cons x r ih =>
    unfold sortDesc
    exact pairwise_insDesc x (sortDesc r) ih

/-! ### Query-shape lemmas -/

theorem queryRaw_keys (m : Model) (t : String) (e : Evidence) :
    (queryRaw m t e).map Prod.fst = statesOf m t := by
  unfold queryRaw
  rw [List.map_map]
  exact List.map_id _

theorem query_ok {m : Model} {t : String} {e : Evidence}
    {r : List (String × ℚ)} (h : query m t e = Except.ok r) :
    queryTotal m t e ≠ 0 ∧
      r = (queryRaw m t e).map
        (fun sv => (sv.1, sv.2 / queryTotal m t e)) := by
  unfold query at h
  split at h
  · cases h
  · split at h
    · cases h
    · split at h
      · split at h
        · cases h
        · exact ⟨by assumption, (Except.ok.inj h).symm⟩
      · cases h

theorem except_map_ok {ε α β : Type} {f : α → β} {x : Except ε α} {b : β}
    (h : Except.map f x = Except.ok b) :
    ∃ a, x = Except.ok a ∧ b = f a := by
  cases x with
  | error e => simp [Except.map] at h
  | ok a =>
    simp only [Except.map] at h
    exact ⟨a, rfl, (Except.ok.inj h).symm⟩

/-- C7: whenever `recommend_gender` succeeds, its result pairs cover the
declared `ProgramGenre` domain of the core model exactly once (the keys
are a permutation of the declared state list), are sorted in descending
order of probability, and the probabilities sum to exactly 1 (the
rational embedding makes the spec's ±ε exact). -/
theorem C7_recommend_gender_ranking (evidence : Evidence) (model : Model)
    (res : List (String × ℚ))
    (h : recommend_gender evidence model = Except.ok res) :
    (res.map Prod.fst).Perm (statesOf (coreModel model) "ProgramGenre")
    ∧ res.Pairwise (fun a b => b.2 ≤ a.2)
    ∧ (res.map Prod.snd).sum = 1 := by
  unfold recommend_gender at h
  obtain ⟨r0, hq, hres⟩ := except_map_ok h
  obtain ⟨hT, hr0⟩ := query_ok hq
  have hperm : res.Perm r0 := by
    rw [hres]; exact perm_sortDesc r0
  have hkeys : r0.map Prod.fst
      = statesOf (coreModel model) "ProgramGenre" := by
    rw [hr0, List.map_map]
    exact queryRaw_keys _ _ _
  refine ⟨?_, ?_, ?_⟩
  · have h1 := hperm.map Prod.fst
    rw [hkeys] at h1
    exact h1
  · rw [hres]
    exact pairwise_sortDesc r0
  · have h3 := (hperm.map Prod.snd).sum_eq
    rw [h3, hr0, List.map_map]
    show ((queryRaw (coreModel model) "ProgramGenre" evidence).map
        (fun sv =>
          sv.2 / queryTotal (coreModel model) "ProgramGenre" evidence)).sum
      = 1
    have hmm : (((queryRaw (coreModel model) "ProgramGenre" evidence).map
          Prod.snd).map (fun x =>
        x / queryTotal (coreModel model) "ProgramGenre" evidence))
        = ((queryRaw (coreModel model) "ProgramGenre" evidence).map
          (fun sv =>
            sv.2 / queryTotal (coreModel model) "ProgramGenre" evidence)) := by
      rw [List.map_map]
      rfl
    rw [← hmm, list_sum_div]
    exact div_self hT

/-- Witness for C7 on the concrete model `modelW6`: the ranking is the
full one-state genre domain, trivially sorted, with mass 1. -/
theorem C7_recommend_gender_ranking_witness :
    (([("comedy", (1 : ℚ))].map Prod.fst).Perm
        (statesOf (coreModel modelW6) "ProgramGenre"))
    ∧ ([("comedy", (1 : ℚ))] : List (String × ℚ)).Pairwise
        (fun a b => b.2 ≤ a.2)
    ∧ ([("comedy", (1 : ℚ))].map Prod.snd).sum = 1 :=
  C7_recommend_gender_ranking [("UserAge", "adult")] modelW6
    [("comedy", 1)]
    (by simp [recommend_gender, query, queryRaw, queryTotal, sortDesc,
      insDesc, assignProd, assignGet, evGet?, jointWeight, cpdEntry,
      statesOf, modelNodes, modelGet, snGet, idxOf, listProd, coreModel,
      CORE_NODES, modelW6, cpdU6, cpdT6, cpdG6, List.find?, List.filter,
      List.flatMap, List.zip, List.zipWith, Except.map])

/-- C8: undeclared names make the query fail rather than return a
distribution: an evidence variable outside the model's nodes yields
`UnknownVariableError`; with all evidence variables declared, an
evidence state outside its variable's domain yields `UnknownStateError`;
with all evidence declared, an undeclared target yields
`UnknownVariableError`; and `recommend_gender` propagates every such
engine error. -/
theorem C8_undeclared_names_fail (m : Model) (t : String) (e : Evidence) :
    ((∃ kv ∈ e, kv.1 ∉ modelNodes m) →
        ∃ v, query m t e = Except.error (InferError.unknownVariable v)
          ∧ v ∉ modelNodes m)
    ∧ ((∀ kv ∈ e, kv.1 ∈ modelNodes m) →
        ∀ p ∈ e, p.2 ∉ statesOf m p.1 →
        ∃ v s, query m t e = Except.error (InferError.unknownState v s)
          ∧ s ∉ statesOf m v)
    ∧ ((∀ kv ∈ e, kv.1 ∈ modelNodes m ∧ kv.2 ∈ statesOf m kv.1) →
        t ∉ modelNodes m →
        query m t e = Except.error (InferError.unknownVariable t))
    ∧ (∀ err, query (coreModel m) "ProgramGenre" e = Except.error err →
        recommend_gender e m = Except.error err) := by
  refine ⟨?_, ?_, ?_, ?_⟩
  · rintro ⟨kv, hkv, hnkv⟩
    have hs : (e.find? (fun kv => decide (kv.1 ∉ modelNodes m))).isSome := by
      rw [List.find?_isSome]
      exact ⟨kv, hkv, by simpa using hnkv⟩
    obtain ⟨q, hq⟩ := Option.isSome_iff_exists.mp hs
    have hqp := List.find?_some hq
    refine ⟨q.1, ?_, by simpa using hqp⟩
    unfold query
    rw [hq]
  · intro hall p hp hps
    have hf1 : e.find? (fun kv => decide (kv.1 ∉ modelNodes m)) = none := by
      rw [List.find?_eq_none]
      intro x hx
      simp only [decide_eq_true_eq, Decidable.not_not]
      exact hall x hx
    have hs : (e.find? (fun kv => decide (kv.2 ∉ statesOf m kv.1))).isSome := by
      rw [List.find?_isSome]
      exact ⟨p, hp, by simpa using hps⟩
    obtain ⟨q, hq⟩ := Option.isSome_iff_exists.mp hs
    have hqp := List.find?_some hq
    refine ⟨q.1, q.2, ?_, by simpa using hqp⟩
    unfold query
    rw [hf1]
    dsimp only
    rw [hq]
  · intro hall ht
    have hf1 : e.find? (fun kv => decide (kv.1 ∉ modelNodes m)) = none := by
      rw [List.find?_eq_none]
      intro x hx
      simp only [decide_eq_true_eq, Decidable.not_not]
      exact (hall x hx).1
    have hf2 : e.find? (fun kv => decide (kv.2 ∉ statesOf m kv.1)) = none := by
      rw [List.find?_eq_none]
      intro x hx
      simp only [decide_eq_true_eq, Decidable.not_not]
      exact (hall x hx).2
    unfold query
    rw [hf1]
    dsimp only
    rw [hf2]
    dsimp only
    rw [if_neg ht]
  · intro err herr
    unfold recommend_gender
    rw [herr]
    rfl

/-- Witness for C8: the evidence `UserAge = "toddler"` names a declared
variable but an undeclared state, and the query fails with the
unknown-state error. -/
theorem C8_undeclared_names_fail_witness :
    ∃ v s, query modelW6 "ProgramGenre" [("UserAge", "toddler")]
        = Except.error (InferError.unknownState v s)
      ∧ s ∉ statesOf modelW6 v :=
  (C8_undeclared_names_fail modelW6 "ProgramGenre"
      [("UserAge", "toddler")]).2.1 (by decide)
    ("UserAge", "toddler") (by decide) (by decide)

/-- C9: null/missing attribute values (`None`, `""`, `"null"`) are
silently dropped — the evidence passed to inference holds exactly the
attributes with a usable value — and when every attribute is
null/missing, `infer_with_bn` returns the distinguishable empty result
(`none`), for every model whatsoever, i.e. without running inference. -/
theorem C9_null_attributes_dropped (attrs : Attrs) (model : Model) :
    (∀ kv : String × String,
        kv ∈ recommend_by_genre attrs
          ↔ (kv.1, some kv.2) ∈ attrs ∧ kv.2 ≠ "" ∧ kv.2 ≠ "null")
    ∧ ((∀ kv ∈ attrs, kv.2 = none ∨ kv.2 = some "" ∨ kv.2 = some "null") →
        infer_with_bn attrs model = Except.ok none) := by
  constructor
  · intro kv
    unfold recommend_by_genre
    rw [List.mem_filterMap]
    constructor
    · rintro ⟨a, ha, hfa⟩
      rcases a with ⟨k, v⟩
      cases v with
      | none => cases hfa
      | some v =>
        dsimp only at hfa
        by_cases hv : v = "" ∨ v = "null"
        · rw [if_pos hv] at hfa
          cases hfa
        · rw [if_neg hv] at hfa
          cases hfa
          push_neg at hv
          exact ⟨ha, hv.1, hv.2⟩
    · rintro ⟨hmem, h1, h2⟩
      refine ⟨(kv.1, some kv.2), hmem, ?_⟩
      dsimp only
      rw [if_neg (by tauto)]
  · intro hall
    have hnil : recommend_by_genre attrs = [] := by
      unfold recommend_by_genre
      rw [List.filterMap_eq_nil_iff]
      intro a ha
      rcases hall a ha with h | h | h
      · rw [h]
      · rw [h]
        dsimp only
        rw [if_pos (Or.inl rfl)]
      · rw [h]
        dsimp only
        rw [if_pos (Or.inr rfl)]
    simp only [infer_with_bn, hnil]
    rfl

/-- Witness for C9: with every attribute null, missing or `"null"`, the
composite inference returns the empty result. -/
theorem C9_null_attributes_dropped_witness :
    infer_with_bn attrsW9 modelW6 = Except.ok none :=
  (C9_null_attributes_dropped attrsW9 modelW6).2 (by decide)

/-- C6: whenever at least one attribute survives the null filter,
`infer_with_bn` ranks `ProgramType` on the filtered evidence, takes its
top state, re-ranks `ProgramGenre` with the evidence extended by exactly
that chosen state, and returns both top choices together with both full
rankings. -/
theorem C6_composite_recommendation (attrs : Attrs) (model : Model)
    (tr gr : List (String × ℚ))
    (hne : recommend_by_genre attrs ≠ [])
    (ht : recommend_type (recommend_by_genre attrs) model = Except.ok tr)
    (hg : recommend_gender
        (evSet (recommend_by_genre attrs) "ProgramType"
          (tr.headD ("", 0)).1) model = Except.ok gr) :
    infer_with_bn attrs model
      = Except.ok (some
          { programType := (tr.headD ("", 0)).1,
            programGenre := (gr.headD ("", 0)).1,
            type_ranking := tr,
            genre_ranking := gr }) := by
  simp only [infer_with_bn]
  rw [if_neg (by rw [List.isEmpty_iff]; exact hne)]
  rw [ht]
  dsimp only
  rw [hg]

/-- Witness for C6 on the concrete model `modelW6` and the attributes
`attrsW6` (one usable attribute, one null). -/
theorem C6_composite_recommendation_witness :
    infer_with_bn attrsW6 modelW6
      = Except.ok (some
          { programType := "movie", programGenre := "comedy",
            type_ranking := [("movie", (1 : ℚ))],
            genre_ranking := [("comedy", (1 : ℚ))] }) :=
  C6_composite_recommendation attrsW6 modelW6 [("movie", 1)]
    [("comedy", 1)] (by decide)
    (by simp [recommend_type, recommend_by_genre, attrsW6, query, queryRaw,
      queryTotal, sortDesc, insDesc, assignProd, assignGet, evGet?,
      jointWeight, cpdEntry, statesOf, modelNodes, modelGet, snGet, idxOf,
      listProd, modelW6, cpdU6, cpdT6, cpdG6, List.find?, List.filter,
      List.flatMap, List.zip, List.zipWith, Except.map])
    (by simp [recommend_gender, recommend_by_genre, attrsW6, evSet,
      List.headD, query, queryRaw, queryTotal, sortDesc, insDesc,
      assignProd, assignGet, evGet?, jointWeight, cpdEntry, statesOf,
      modelNodes, modelGet, snGet, idxOf, listProd, coreModel, CORE_NODES,
      modelW6, cpdU6, cpdT6, cpdG6, List.find?, List.filter, List.flatMap,
      List.zip, List.zipWith, Except.map])

end BNTV
